import Mathlib

/-!
Verification development for the XML code-snippet packer and per-language
structural compression engine.  The definitions below are a shallow
embedding of the Python source (`script.py` and its sibling iteration):
pure functions over `String`/`List` mirror the Python line-oriented state
machines, Python `int` arithmetic is `Int` where subtraction can go
negative and `Nat` elsewhere, and Python string primitives (`strip`,
`count`, `startswith`, slicing) are modelled by the helpers in the first
section.
-/

/-! ### Python string primitive helpers -/

/-- Python `\s` (ASCII fragment): blank characters recognised by `str.strip`. -/
def isSpaceChar (c : Char) : Bool := c.isWhitespace

/-- Python `\w` (ASCII fragment): letters, digits and underscore. -/
def isWordChar (c : Char) : Bool := c.isAlphanum || c = '_'

/-- Python `line.strip()`. -/
def pyStrip (s : String) : String :=
  ⟨((s.data.dropWhile isSpaceChar).reverse.dropWhile isSpaceChar).reverse⟩

/-- Python `line.rstrip()`. -/
def pyRstrip (s : String) : String :=
  ⟨(s.data.reverse.dropWhile isSpaceChar).reverse⟩

/-- Python `line.lstrip()` (used only through `strip`). -/
def pyLstrip (s : String) : String := ⟨s.data.dropWhile isSpaceChar⟩

/-- Does the character list `sub` occur as a contiguous sublist of `s`?
Python `sub in s`. -/
def containsList (sub : List Char) : List Char → Bool
  | [] => sub.isEmpty
  | c :: cs => sub.isPrefixOf (c :: cs) || containsList sub cs

/-- Python `sub in s` on strings. -/
def pyContains (s sub : String) : Bool := containsList sub.data s.data

/-- Python `s.count(sub)`: number of non-overlapping occurrences, scanning
from the left.  The scan consumes at least one character per step, so
`s.length` steps of fuel always suffice (structural recursion on the fuel
keeps the definition kernel-evaluable). -/
def countSubAux (sub : List Char) : Nat → List Char → Nat
  | 0, _ => 0
  | fuel + 1, s =>
    if s = [] then 0
    else if sub ≠ [] ∧ sub.isPrefixOf s then
      1 + countSubAux sub fuel (s.drop sub.length)
    else
      countSubAux sub fuel s.tail

/-- Python `s.count(sub)` on character lists. -/
def countSubList (sub : List Char) (s : List Char) : Nat := countSubAux sub s.length s

/-- Python `s.count(sub)` on strings. -/
def pyCount (s sub : String) : Nat := countSubList sub.data s.data

/-- Python `s.startswith(p)`. -/
def pyStartsWith (s p : String) : Bool := p.data.isPrefixOf s.data

/-- Python `s[:n]` (simple non-negative prefix slice). -/
def pyTake (s : String) (n : Nat) : String := ⟨s.data.take n⟩

/-- Python `len(s)`. -/
def pyLen (s : String) : Nat := s.data.length

/-- Python `'\n'.join(xs)`. -/
def joinLines : List String → String
  | [] => ""
  | [x] => x
  | x :: y :: t => x ++ "\n" ++ joinLines (y :: t)

/-- Split a character list at every occurrence of `c` (Python
`s.split(c)` for a one-character separator). -/
def splitOnChar (c : Char) : List Char → List (List Char)
  | [] => [[]]
  | d :: cs =>
    match splitOnChar c cs with
    | [] => [[]]
    | h :: t => if d = c then [] :: h :: t else (d :: h) :: t

/-- Python `s.split('\n')`. -/
def splitLines (s : String) : List String :=
  (splitOnChar '\n' s.data).map fun l => ⟨l⟩

/-- Python `s.replace(pat, rep)` for a non-empty `pat`: replace every
non-overlapping occurrence, scanning from the left (fuelled like
`countSubAux`). -/
def replaceAux (pat rep : List Char) : Nat → List Char → List Char
  | 0, _ => []
  | fuel + 1, s =>
    if s = [] then []
    else if pat ≠ [] ∧ pat.isPrefixOf s then
      rep ++ replaceAux pat rep fuel (s.drop pat.length)
    else
      s.take 1 ++ replaceAux pat rep fuel s.tail

/-- Python `s.replace(pat, rep)` on strings. -/
def pyReplace (s pat rep : String) : String :=
  ⟨replaceAux pat.data rep.data s.data.length s.data⟩

/-- Python list indexing `xs[j]` under a bounds guard (`j < len(xs)` always
holds at every use site below, so the default is never reached). -/
def lineAt (lines : List String) (j : Nat) : String := lines.getD j ""

/-! ### TokenEstimator (`estimate_tokens`) -/

/-- `estimate_tokens(text)`: `len(text) // 3` (the docstring advertises a
4-characters-per-token approximation, the code divides by 3). -/
def estimate_tokens (text : String) : Nat := pyLen text / 3

/-! ### ChunkPacker (the packing loop of `main`)

The loop packs an ordered sequence of per-file snippets into chunks bounded
by `--max-tokens`.  Only each snippet's estimated token count matters to
the control flow, so a record is represented by that `Nat`. -/

/-- One completed chunk: the snippet sizes it holds, plus the
`start_num`/`file_count` bookkeeping recorded by `main`. -/
structure Chunk where
  content : List Nat
  start_num : Nat
  file_count : Nat
deriving Repr, DecidableEq

/-- The mutable locals of the packing loop in `main`.
`large_standalone_files` keeps the `code_num` of each oversized record. -/
structure PackState where
  chunks : List Chunk
  current_chunk : List Nat
  current_tokens : Nat
  counter : Nat
  chunk_file_count : Nat
  large_standalone_files : List Nat
deriving Repr, DecidableEq

/-- `base_overhead_tokens = 500`. -/
def base_overhead_tokens : Nat := 500

/-- Loop state immediately before the first record. -/
def packInit (start_num : Nat) : PackState :=
  { chunks := [], current_chunk := [], current_tokens := 0,
    counter := start_num, chunk_file_count := 0, large_standalone_files := [] }

/-- `current_overhead = first_chunk_overhead if is_first_chunk and not
current_chunk else base_overhead_tokens`, where `is_first_chunk` is
`len(chunks) == 0`. -/
def current_overhead (first_chunk_overhead : Nat) (st : PackState) : Nat :=
  if st.chunks = [] ∧ st.current_chunk = [] then first_chunk_overhead
  else base_overhead_tokens

/-- Appending the pending accumulator to `chunks` (the
`chunks.append({'content': current_chunk, 'start_num': counter -
chunk_file_count, 'file_count': chunk_file_count})` block). -/
def flushCurrent (st : PackState) : PackState :=
  { st with
    chunks := st.chunks ++
      [{ content := st.current_chunk,
         start_num := st.counter - st.chunk_file_count,
         file_count := st.chunk_file_count }],
    current_chunk := [], current_tokens := 0, chunk_file_count := 0 }

/-- One iteration of the packing loop for a record whose snippet estimates
to `snippet_tokens` tokens. -/
def packStep (max_tokens first_chunk_overhead : Nat) (st : PackState)
    (snippet_tokens : Nat) : PackState :=
  let ov := current_overhead first_chunk_overhead st
  if snippet_tokens + ov > max_tokens then
    let st1 := if st.current_chunk = [] then st else flushCurrent st
    { st1 with
      chunks := st1.chunks ++
        [{ content := [snippet_tokens], start_num := st1.counter, file_count := 1 }],
      large_standalone_files := st1.large_standalone_files ++ [st1.counter],
      counter := st1.counter + 1 }
  else
    let st2 :=
      if st.current_tokens + snippet_tokens + ov > max_tokens ∧ st.current_chunk ≠ []
      then flushCurrent st else st
    { st2 with
      current_chunk := st2.current_chunk ++ [snippet_tokens],
      current_tokens := st2.current_tokens + snippet_tokens,
      chunk_file_count := st2.chunk_file_count + 1,
      counter := st2.counter + 1 }

/-- The `#add last chunk` epilogue. -/
def packFinish (st : PackState) : PackState :=
  if st.current_chunk = [] then st else flushCurrent st

/-- The whole packing loop of `main`: `first_chunk_overhead =
base_overhead_tokens + tree_tokens + images_tokens` (in the variant without
an images section, `images_tokens = 0`; without `--include-tree`,
`tree_tokens = 0`). -/
def packChunks (max_tokens tree_tokens images_tokens start_num : Nat)
    (sizes : List Nat) : PackState :=
  let first_chunk_overhead := base_overhead_tokens + tree_tokens + images_tokens
  packFinish (sizes.foldl (packStep max_tokens first_chunk_overhead) (packInit start_num))

/-- Sum of the snippet sizes held by a chunk. -/
def chunkTokens (c : Chunk) : Nat := c.content.sum

/-- The chunk list covers consecutive id ranges starting at `s`, with
`file_count` agreeing with the number of records held. -/
def ContiguousFrom : Nat → List Chunk → Prop
  | _, [] => True
  | s, c :: cs =>
    c.start_num = s ∧ c.file_count = c.content.length ∧
      ContiguousFrom (s + c.file_count) cs

/-- First id not covered by the chunk list when it starts at `s`. -/
def chunksEnd (s : Nat) (cs : List Chunk) : Nat :=
  s + (cs.map Chunk.file_count).sum

/-! ### Packer invariant -/

/-- Loop invariant of the packing loop: `st` is the state after consuming
the records in `consumed`, `B` the token budget, `fo` the first-chunk
overhead, `start` the `--start-num`. -/
structure PInv (B fo start : Nat) (consumed : List Nat) (st : PackState) : Prop where
  tok : st.current_tokens = st.current_chunk.sum
  cnt : st.chunk_file_count = st.current_chunk.length
  ctr : st.counter = start + consumed.length
  contig : ContiguousFrom start st.chunks
  endc : chunksEnd start st.chunks + st.current_chunk.length = st.counter
  join_eq : (st.chunks.map Chunk.content).join ++ st.current_chunk = consumed
  cur_bound : st.current_chunk ≠ [] →
    st.current_chunk.sum + base_overhead_tokens ≤ B
  chunks_ok : ∀ c ∈ st.chunks,
    chunkTokens c + base_overhead_tokens ≤ B ∨
      (c.file_count = 1 ∧ c.start_num ∈ st.large_standalone_files)
  over_ok : ∀ n ∈ st.large_standalone_files, ∃ c ∈ st.chunks,
    c.start_num = n ∧ c.file_count = 1 ∧ ∃ t, c.content = [t] ∧ B < t + fo
  nonnil : ∀ c ∈ st.chunks, c.content ≠ []

theorem chunksEnd_append_single (s : Nat) (l : List Chunk) (c : Chunk) :
    chunksEnd s (l ++ [c]) = chunksEnd s l + c.file_count := by
  simp [chunksEnd]
  omega

theorem contiguousFrom_append_single {s : Nat} {l : List Chunk} {c : Chunk}
    (h : ContiguousFrom s l) (hc : c.start_num = chunksEnd s l)
    (hf : c.file_count = c.content.length) :
    ContiguousFrom s (l ++ [c]) := by
  induction l generalizing s with
  | nil =>
    simp only [List.nil_append]
    exact ⟨by simpa [chunksEnd] using hc, hf, trivial⟩
  | cons a l ih =>
    obtain ⟨h1, h2, h3⟩ := h
    refine ⟨h1, h2, ih h3 ?_ ⟩
    rw [hc]
    simp [chunksEnd]
    omega

theorem pinv_init (B fo start : Nat) : PInv B fo start [] (packInit start) := by
  refine ⟨rfl, rfl, by simp [packInit], trivial, by simp [packInit, chunksEnd], by simp [packInit], ?_, ?_, ?_, ?_⟩
  · intro h; exact absurd rfl h
  · intro c hc; simp [packInit] at hc
  · intro n hn; simp [packInit] at hn
  · intro c hc; simp [packInit] at hc

theorem pinv_flush {B fo start : Nat} {consumed : List Nat} {st : PackState}
    (h : PInv B fo start consumed st) (hne : st.current_chunk ≠ []) :
    PInv B fo start consumed (flushCurrent st) := by
  have hcfc : st.counter - st.chunk_file_count = chunksEnd start st.chunks := by
    have := h.endc
    have := h.cnt
    omega
  refine ⟨rfl, rfl, by simpa [flushCurrent] using h.ctr, ?_, ?_, ?_, ?_, ?_, ?_, ?_⟩
  · simp only [flushCurrent]
    exact contiguousFrom_append_single h.contig hcfc (by simpa using h.cnt)
  · simp only [flushCurrent, chunksEnd_append_single]
    have := h.endc
    have := h.cnt
    simp only [List.length_nil]
    omega
  · simp only [flushCurrent, List.map_append, List.join_append]
    simpa using h.join_eq
  · intro hc; exact absurd rfl hc
  · intro c hc
    simp only [flushCurrent, List.mem_append, List.mem_singleton] at hc
    rcases hc with hc | hc
    · rcases h.chunks_ok c hc with h1 | h1
      · exact Or.inl h1
      · exact Or.inr h1
    · subst hc
      exact Or.inl (by simpa [chunkTokens] using h.cur_bound hne)
  · intro n hn
    obtain ⟨c, hc, hrest⟩ := h.over_ok n hn
    exact ⟨c, by simp [flushCurrent, List.mem_append]; exact Or.inl hc, hrest⟩
  · intro c hc
    simp only [flushCurrent, List.mem_append, List.mem_singleton] at hc
    rcases hc with hc | hc
    · exact h.nonnil c hc
    · subst hc; simpa using hne

/-- The oversized branch of `packStep`, isolated for reasoning. -/
def overStep (st : PackState) (s : Nat) : PackState :=
  let st1 := if st.current_chunk = [] then st else flushCurrent st
  { st1 with
    chunks := st1.chunks ++ [{ content := [s], start_num := st1.counter, file_count := 1 }],
    large_standalone_files := st1.large_standalone_files ++ [st1.counter],
    counter := st1.counter + 1 }

/-- The ordinary placement branch of `packStep`, isolated for reasoning. -/
def placeStep (max_tokens first_chunk_overhead : Nat) (st : PackState) (s : Nat) : PackState :=
  let ov := current_overhead first_chunk_overhead st
  let st2 :=
    if st.current_tokens + s + ov > max_tokens ∧ st.current_chunk ≠ []
    then flushCurrent st else st
  { st2 with
    current_chunk := st2.current_chunk ++ [s],
    current_tokens := st2.current_tokens + s,
    chunk_file_count := st2.chunk_file_count + 1,
    counter := st2.counter + 1 }

theorem packStep_eq (B fo : Nat) (st : PackState) (s : Nat) :
    packStep B fo st s =
      if s + current_overhead fo st > B then overStep st s else placeStep B fo st s := rfl

theorem current_overhead_le {fo : Nat} (hbo : base_overhead_tokens ≤ fo) (st : PackState) :
    base_overhead_tokens ≤ current_overhead fo st ∧ current_overhead fo st ≤ fo := by
  unfold current_overhead
  split
  · exact ⟨hbo, le_rfl⟩
  · exact ⟨le_rfl, hbo⟩

theorem pinv_over {B fo start : Nat} {pre : List Nat} {st : PackState} {s : Nat}
    (hbo : base_overhead_tokens ≤ fo)
    (h : PInv B fo start pre st) (hov : s + current_overhead fo st > B) :
    PInv B fo start (pre ++ [s]) (overStep st s) := by
  have h1 : PInv B fo start pre (if st.current_chunk = [] then st else flushCurrent st) := by
    split
    · exact h
    · exact pinv_flush h (by assumption)
  have hcur : (if st.current_chunk = [] then st else flushCurrent st).current_chunk = [] := by
    split
    · assumption
    · rfl
  have hctr : (if st.current_chunk = [] then st else flushCurrent st).counter = st.counter := by
    split <;> rfl
  set st1 := if st.current_chunk = [] then st else flushCurrent st with hst1
  have hend1 : chunksEnd start st1.chunks = st1.counter := by
    have := h1.endc
    rw [hcur] at this
    simpa using this
  have hfo : B < s + fo := by
    have := (current_overhead_le hbo st).2
    omega
  refine ⟨?_, ?_, ?_, ?_, ?_, ?_, ?_, ?_, ?_, ?_⟩
  · show st1.current_tokens = st1.current_chunk.sum
    exact h1.tok
  · show st1.chunk_file_count = st1.current_chunk.length
    exact h1.cnt
  · show st1.counter + 1 = start + (pre ++ [s]).length
    have := h1.ctr
    simp only [List.length_append, List.length_singleton]
    omega
  · show ContiguousFrom start (st1.chunks ++ [_])
    exact contiguousFrom_append_single h1.contig (by simpa using hend1.symm) (by simp)
  · show chunksEnd start (st1.chunks ++ [_]) + st1.current_chunk.length = st1.counter + 1
    rw [chunksEnd_append_single, hcur]
    simpa using hend1
  · show ((st1.chunks ++ [_]).map Chunk.content).flatten ++ st1.current_chunk = pre ++ [s]
    have hj := h1.join_eq
    rw [hcur] at hj
    simp only [List.append_nil] at hj
    rw [hcur]
    simp [hj]
  · show st1.current_chunk ≠ [] → st1.current_chunk.sum + base_overhead_tokens ≤ B
    intro hc
    exact absurd hcur hc
  · show ∀ c ∈ st1.chunks ++ [{ content := [s], start_num := st1.counter, file_count := 1 }],
        chunkTokens c + base_overhead_tokens ≤ B ∨
          (c.file_count = 1 ∧ c.start_num ∈ st1.large_standalone_files ++ [st1.counter])
    intro c hc
    simp only [List.mem_append, List.mem_singleton] at hc
    rcases hc with hc | hc
    · rcases h1.chunks_ok c hc with h2 | h2
      · exact Or.inl h2
      · exact Or.inr ⟨h2.1, by simp only [List.mem_append]; exact Or.inl h2.2⟩
    · subst hc
      exact Or.inr ⟨rfl, by simp⟩
  · show ∀ n ∈ st1.large_standalone_files ++ [st1.counter],
        ∃ c ∈ st1.chunks ++ [{ content := [s], start_num := st1.counter, file_count := 1 }],
          c.start_num = n ∧ c.file_count = 1 ∧ ∃ t, c.content = [t] ∧ B < t + fo
    intro n hn
    simp only [List.mem_append, List.mem_singleton] at hn
    rcases hn with hn | hn
    · obtain ⟨c, hc, h2, h3, t, h4, h5⟩ := h1.over_ok n hn
      exact ⟨c, by simp only [List.mem_append]; exact Or.inl hc, h2, h3, t, h4, h5⟩
    · subst hn
      exact ⟨{ content := [s], start_num := st1.counter, file_count := 1 }, by simp, rfl, rfl,
        s, rfl, hfo⟩
  · show ∀ c ∈ st1.chunks ++ [{ content := [s], start_num := st1.counter, file_count := 1 }],
        c.content ≠ []
    intro c hc
    simp only [List.mem_append, List.mem_singleton] at hc
    rcases hc with hc | hc
    · exact h1.nonnil c hc
    · subst hc; simp

theorem pinv_place {B fo start : Nat} {pre : List Nat} {st : PackState} {s : Nat}
    (hbo : base_overhead_tokens ≤ fo)
    (h : PInv B fo start pre st) (hov : ¬ s + current_overhead fo st > B) :
    PInv B fo start (pre ++ [s]) (placeStep B fo st s) := by
  have h2 : PInv B fo start pre
      (if st.current_tokens + s + current_overhead fo st > B ∧ st.current_chunk ≠ []
       then flushCurrent st else st) := by
    split
    · exact pinv_flush h (by rename_i hcond; exact hcond.2)
    · exact h
  set st2 := if st.current_tokens + s + current_overhead fo st > B ∧ st.current_chunk ≠ []
       then flushCurrent st else st with hst2
  have hbound : st2.current_chunk.sum + s + base_overhead_tokens ≤ B := by
    by_cases hcond : st.current_tokens + s + current_overhead fo st > B ∧ st.current_chunk ≠ []
    · have : st2 = flushCurrent st := by rw [hst2, if_pos hcond]
      rw [this]
      show (([] : List Nat)).sum + s + base_overhead_tokens ≤ B
      have hovbo : current_overhead fo st = base_overhead_tokens := by
        unfold current_overhead
        rw [if_neg]
        intro hco
        exact hcond.2 hco.2
      rw [hovbo] at hov
      simp only [List.sum_nil]
      omega
    · have hself : st2 = st := by rw [hst2, if_neg hcond]
      rw [hself]
      by_cases hcc : st.current_chunk = []
      · rw [hcc]
        have := (current_overhead_le hbo st).1
        simp only [List.sum_nil]
        omega
      · have hle : ¬ st.current_tokens + s + current_overhead fo st > B := by
          intro hgt
          exact hcond ⟨hgt, hcc⟩
        have hovbo : current_overhead fo st = base_overhead_tokens := by
          unfold current_overhead
          rw [if_neg]
          intro hco
          exact hcc hco.2
        have htk := h.tok
        rw [hovbo] at hle
        omega
  refine ⟨?_, ?_, ?_, ?_, ?_, ?_, ?_, ?_, ?_, ?_⟩
  · show st2.current_tokens + s = (st2.current_chunk ++ [s]).sum
    have := h2.tok
    simp [this]
  · show st2.chunk_file_count + 1 = (st2.current_chunk ++ [s]).length
    have := h2.cnt
    simp [this]
  · show st2.counter + 1 = start + (pre ++ [s]).length
    have := h2.ctr
    simp only [List.length_append, List.length_singleton]
    omega
  · exact h2.contig
  · show chunksEnd start st2.chunks + (st2.current_chunk ++ [s]).length = st2.counter + 1
    have := h2.endc
    simp only [List.length_append, List.length_singleton]
    omega
  · show (st2.chunks.map Chunk.content).flatten ++ (st2.current_chunk ++ [s]) = pre ++ [s]
    have := h2.join_eq
    rw [← List.append_assoc, this]
  · intro _
    show (st2.current_chunk ++ [s]).sum + base_overhead_tokens ≤ B
    simp only [List.sum_append, List.sum_cons, List.sum_nil]
    omega
  · exact h2.chunks_ok
  · exact h2.over_ok
  · exact h2.nonnil

theorem pinv_step {B fo start : Nat} {pre : List Nat} {st : PackState} (s : Nat)
    (hbo : base_overhead_tokens ≤ fo) (h : PInv B fo start pre st) :
    PInv B fo start (pre ++ [s]) (packStep B fo st s) := by
  rw [packStep_eq]
  split
  · exact pinv_over hbo h (by assumption)
  · exact pinv_place hbo h (by assumption)

theorem pinv_foldl {B fo start : Nat} (hbo : base_overhead_tokens ≤ fo) :
    ∀ (sizes pre : List Nat) (st : PackState), PInv B fo start pre st →
      PInv B fo start (pre ++ sizes) (sizes.foldl (packStep B fo) st)
  | [], pre, st, h => by simpa using h
  | s :: rest, pre, st, h => by
    have := pinv_foldl hbo rest (pre ++ [s]) (packStep B fo st s) (pinv_step s hbo h)
    simpa using this

theorem pinv_finish {B fo start : Nat} {sizes : List Nat} {st : PackState}
    (h : PInv B fo start sizes st) :
    PInv B fo start sizes (packFinish st) ∧ (packFinish st).current_chunk = [] := by
  unfold packFinish
  split
  · exact ⟨h, by assumption⟩
  · exact ⟨pinv_flush h (by assumption), rfl⟩

theorem packChunks_pinv (B t g start : Nat) (sizes : List Nat) :
    PInv B (base_overhead_tokens + t + g) start sizes (packChunks B t g start sizes) ∧
      (packChunks B t g start sizes).current_chunk = [] := by
  have hbo : base_overhead_tokens ≤ base_overhead_tokens + t + g := by omega
  have h0 := pinv_init B (base_overhead_tokens + t + g) start
  have h1 := pinv_foldl hbo sizes [] (packInit start) h0
  simp only [List.nil_append] at h1
  exact pinv_finish h1

theorem contiguous_counts {s : Nat} {l : List Chunk} (h : ContiguousFrom s l) :
    ∀ c ∈ l, c.file_count = c.content.length := by
  induction l generalizing s with
  | nil => intro c hc; simp at hc
  | cons a l ih =>
    intro c hc
    rcases hc with _ | hc
    · exact h.2.1
    · exact ih h.2.2 c (by assumption)

theorem contiguous_ranges {s : Nat} {l : List Chunk} (h : ContiguousFrom s l) :
    (l.map fun c => List.range' c.start_num c.file_count).flatten =
      List.range' s ((l.map Chunk.file_count).sum) := by
  induction l generalizing s with
  | nil => simp
  | cons a l ih =>
    obtain ⟨h1, _, h3⟩ := h
    simp only [List.map_cons, List.flatten_cons, List.sum_cons, ih h3, h1]
    rw [List.range'_append_1, Nat.add_comm]

theorem contiguous_chain {s : Nat} {l : List Chunk} (h : ContiguousFrom s l) :
    List.Chain' (fun a b => a.start_num + a.file_count = b.start_num) l := by
  induction l generalizing s with
  | nil => exact List.chain'_nil
  | cons a l ih =>
    obtain ⟨h1, _, h3⟩ := h
    cases l with
    | nil => simp
    | cons b l2 =>
      refine List.Chain'.cons ?_ (ih h3)
      rw [h1]
      exact h3.1.symm

theorem packStep_not_both_empty (B fo : Nat) (st : PackState) (s : Nat) :
    ¬((packStep B fo st s).chunks = [] ∧ (packStep B fo st s).current_chunk = []) := by
  rw [packStep_eq]
  split
  · intro h
    have : (overStep st s).chunks ≠ [] := by
      show (if st.current_chunk = [] then st else flushCurrent st).chunks ++ _ ≠ []
      simp
    exact this h.1
  · intro h
    have : (placeStep B fo st s).current_chunk ≠ [] := by
      show (if _ ∧ _ then flushCurrent st else st).current_chunk ++ [s] ≠ []
      simp
    exact this h.2

theorem foldl_not_both_empty (B fo : Nat) :
    ∀ (l : List Nat) (st : PackState), l ≠ [] →
      ¬((l.foldl (packStep B fo) st).chunks = [] ∧
        (l.foldl (packStep B fo) st).current_chunk = [])
  | [], _, h => absurd rfl h
  | s :: rest, st, _ => by
    cases rest with
    | nil => simpa using packStep_not_both_empty B fo st s
    | cons b l2 =>
      simpa using foldl_not_both_empty B fo (b :: l2) (packStep B fo st s) (by simp)

/-- C1 (amended).  Every chunk the packer produces keeps
`cumulative estimated tokens + base overhead ≤ max_tokens` unless it is an
oversized singleton; the attachment-inflated first-chunk overhead bounds
only the first record placed into the first chunk, not the first chunk's
cumulative total.  A record whose estimated size plus the current overhead
exceeds `max_tokens` on its own is emitted alone in its own chunk — any
pending accumulator is flushed as a completed chunk first — and its
`code_num` is appended to the informational oversized list. -/
theorem packer_bound_and_oversized (B t g start : Nat) (sizes : List Nat) :
    (∀ c ∈ (packChunks B t g start sizes).chunks,
        chunkTokens c + base_overhead_tokens ≤ B ∨
          (c.file_count = 1 ∧
            c.start_num ∈ (packChunks B t g start sizes).large_standalone_files)) ∧
    (∀ n ∈ (packChunks B t g start sizes).large_standalone_files,
        ∃ c ∈ (packChunks B t g start sizes).chunks,
          c.start_num = n ∧ c.file_count = 1 ∧
            ∃ u, c.content = [u] ∧ B < u + (base_overhead_tokens + t + g)) ∧
    (∀ (st : PackState) (s : Nat),
        s + current_overhead (base_overhead_tokens + t + g) st > B →
          (packStep B (base_overhead_tokens + t + g) st s).chunks =
            (if st.current_chunk = [] then st.chunks
             else st.chunks ++
               [{ content := st.current_chunk,
                  start_num := st.counter - st.chunk_file_count,
                  file_count := st.chunk_file_count }]) ++
            [{ content := [s], start_num := st.counter, file_count := 1 }] ∧
          (packStep B (base_overhead_tokens + t + g) st s).large_standalone_files =
            st.large_standalone_files ++ [st.counter] ∧
          (packStep B (base_overhead_tokens + t + g) st s).current_chunk = []) := by
  obtain ⟨hp, _⟩ := packChunks_pinv B t g start sizes
  refine ⟨hp.chunks_ok, hp.over_ok, ?_⟩
  intro st s hov
  rw [packStep_eq, if_pos hov]
  by_cases hc : st.current_chunk = []
  · refine ⟨?_, ?_, ?_⟩
    · show (if st.current_chunk = [] then st else flushCurrent st).chunks ++ _ = _
      rw [if_pos hc, if_pos hc]
    · show (if st.current_chunk = [] then st else flushCurrent st).large_standalone_files ++ _ = _
      rw [if_pos hc]
    · show (if st.current_chunk = [] then st else flushCurrent st).current_chunk = []
      rw [if_pos hc]
      exact hc
  · refine ⟨?_, ?_, ?_⟩
    · show (if st.current_chunk = [] then st else flushCurrent st).chunks ++ _ = _
      rw [if_neg hc, if_neg hc]
      rfl
    · show (if st.current_chunk = [] then st else flushCurrent st).large_standalone_files ++ _ = _
      rw [if_neg hc]
      rfl
    · show (if st.current_chunk = [] then st else flushCurrent st).current_chunk = []
      rw [if_neg hc]
      rfl

/-- Witness for `packer_bound_and_oversized` at Scenario A of the spec
(three records of 1000 tokens, budget 2500, no attachments). -/
theorem packer_bound_and_oversized_witness :
    ({ content := [1000, 1000], start_num := 1, file_count := 2 } : Chunk) ∈
        (packChunks 2500 0 0 1 [1000, 1000, 1000]).chunks ∧
      (chunkTokens { content := [1000, 1000], start_num := 1, file_count := 2 } +
          base_overhead_tokens ≤ 2500 ∨
        (({ content := [1000, 1000], start_num := 1, file_count := 2 } : Chunk).file_count = 1 ∧
          ({ content := [1000, 1000], start_num := 1, file_count := 2 } : Chunk).start_num ∈
            (packChunks 2500 0 0 1 [1000, 1000, 1000]).large_standalone_files)) :=
  ⟨by decide,
   (packer_bound_and_oversized 2500 0 0 1 [1000, 1000, 1000]).1
     { content := [1000, 1000], start_num := 1, file_count := 2 } (by decide)⟩

/-- C1 counterexample to the claim as stated.  Budget 1000, a directory
tree estimating 300 tokens, records of 150 and 300 tokens: both land in
the first chunk, which is not an oversized singleton, yet its cumulative
tokens plus the first chunk's applicable (attachment-inflated) overhead
exceed the budget — only the base overhead bound survives. -/
theorem packer_first_chunk_overhead_cex :
    (packChunks 1000 300 0 1 [150, 300]).chunks =
      [{ content := [150, 300], start_num := 1, file_count := 2 }] ∧
    (packChunks 1000 300 0 1 [150, 300]).large_standalone_files = [] ∧
    chunkTokens { content := [150, 300], start_num := 1, file_count := 2 } +
      (base_overhead_tokens + 300 + 0) > 1000 := by decide

/-- C2.  The packer never reorders records: the concatenation of chunk
contents is the input sequence, the chunks cover consecutive id ranges
from `start_num` (`file_count` bookkeeping matching), consecutive chunks
satisfy `last id + 1 = next first id`, oversized singletons consume one id
each, and concatenating all chunks' id ranges is exactly
`start_num .. start_num + N - 1` with no gaps or overlaps. -/
theorem packer_order_preserved (B t g start : Nat) (sizes : List Nat) :
    ((packChunks B t g start sizes).chunks.map Chunk.content).flatten = sizes ∧
    ContiguousFrom start (packChunks B t g start sizes).chunks ∧
    ((packChunks B t g start sizes).chunks.map
        fun c => List.range' c.start_num c.file_count).flatten =
      List.range' start sizes.length ∧
    List.Chain' (fun a b => a.start_num + a.file_count = b.start_num)
      (packChunks B t g start sizes).chunks ∧
    (∀ c ∈ (packChunks B t g start sizes).chunks,
      c.file_count = c.content.length ∧ c.content ≠ []) := by
  obtain ⟨hp, hcur⟩ := packChunks_pinv B t g start sizes
  have hjoin : ((packChunks B t g start sizes).chunks.map Chunk.content).flatten = sizes := by
    have := hp.join_eq
    rw [hcur] at this
    simpa using this
  have hsum : ((packChunks B t g start sizes).chunks.map Chunk.file_count).sum = sizes.length := by
    have h1 : (packChunks B t g start sizes).chunks.map Chunk.file_count =
        (packChunks B t g start sizes).chunks.map (fun c => c.content.length) :=
      List.map_congr_left (fun c hc => contiguous_counts hp.contig c hc)
    have h2 : (List.map (fun c => c.content.length) (packChunks B t g start sizes).chunks).sum =
        ((packChunks B t g start sizes).chunks.map Chunk.content).flatten.length := by
      simp only [List.length_flatten, List.map_map]
      rfl
    rw [h1, h2, hjoin]
  refine ⟨hjoin, hp.contig, ?_, contiguous_chain hp.contig,
    fun c hc => ⟨contiguous_counts hp.contig c hc, hp.nonnil c hc⟩⟩
  rw [contiguous_ranges hp.contig, hsum]

/-- Witness for `packer_order_preserved` at Scenario B of the spec
(sizes 100, 100, 5000, 100, budget 1000). -/
theorem packer_order_preserved_witness :
    ({ content := [100, 100], start_num := 1, file_count := 2 } : Chunk) ∈
        (packChunks 1000 0 0 1 [100, 100, 5000, 100]).chunks ∧
      (({ content := [100, 100], start_num := 1, file_count := 2 } : Chunk).file_count =
          ({ content := [100, 100], start_num := 1, file_count := 2 } : Chunk).content.length ∧
        ({ content := [100, 100], start_num := 1, file_count := 2 } : Chunk).content ≠ []) :=
  ⟨by decide,
   (packer_order_preserved 1000 0 0 1 [100, 100, 5000, 100]).2.2.2.2
     { content := [100, 100], start_num := 1, file_count := 2 } (by decide)⟩

/-- C5.  The state before record `i` has an empty first chunk
(`chunks == []` and empty accumulator) exactly when `i = 0`, and the
overhead entering record `i`'s placement decisions is the attachment-
inflated `base + tree_tokens + images_tokens` for that state and the base
overhead alone for every other placement decision (first chunk already
non-empty, or any later chunk).  `packStep` computes its decisions from
`current_overhead` of the pre-state by definition. -/
theorem packer_overhead_asymmetry (B t g start : Nat) (sizes : List Nat) (i : Nat)
    (hi : i < sizes.length) :
    ((((sizes.take i).foldl (packStep B (base_overhead_tokens + t + g))
          (packInit start)).chunks = [] ∧
      ((sizes.take i).foldl (packStep B (base_overhead_tokens + t + g))
          (packInit start)).current_chunk = []) ↔ i = 0) ∧
    current_overhead (base_overhead_tokens + t + g)
        ((sizes.take i).foldl (packStep B (base_overhead_tokens + t + g)) (packInit start)) =
      if i = 0 then base_overhead_tokens + t + g else base_overhead_tokens := by
  cases i with
  | zero =>
    constructor
    · simp [packInit]
    · simp [current_overhead, packInit]
  | succ k =>
    have hne : sizes.take (k + 1) ≠ [] := by
      intro h
      have := congrArg List.length h
      simp only [List.length_take, List.length_nil] at this
      omega
    have hkey := foldl_not_both_empty B (base_overhead_tokens + t + g)
      (sizes.take (k + 1)) (packInit start) hne
    constructor
    · exact iff_of_false hkey (by omega)
    · rw [current_overhead, if_neg hkey, if_neg (by omega)]

/-- Witness for `packer_overhead_asymmetry`: with tree and image
attachments of 7 and 3 tokens, the decision for the second record (index
1) uses the base overhead 500. -/
theorem packer_overhead_asymmetry_witness :
    1 < ([100, 200] : List Nat).length ∧
    current_overhead (base_overhead_tokens + 7 + 3)
        ((([100, 200] : List Nat).take 1).foldl
          (packStep 45000 (base_overhead_tokens + 7 + 3)) (packInit 1)) =
      if 1 = 0 then base_overhead_tokens + 7 + 3 else base_overhead_tokens :=
  ⟨by decide, (packer_overhead_asymmetry 45000 7 3 1 [100, 200] 1 (by decide)).2⟩

/-- C10.  `estimate_tokens` is a pure function of the character count:
it equals `len(text) // 3` (floor division by the constant 3, despite the
docstring's 4-characters-per-token remark), hence `3 * result ≤ len <
3 * result + 3`, and it is monotone non-decreasing in text length. -/
theorem estimate_tokens_floor_div (t : String) :
    estimate_tokens t = pyLen t / 3 ∧
    3 * estimate_tokens t ≤ pyLen t ∧
    pyLen t < 3 * estimate_tokens t + 3 ∧
    (∀ s : String, pyLen s ≤ pyLen t → estimate_tokens s ≤ estimate_tokens t) := by
  refine ⟨rfl, ?_, ?_, ?_⟩
  · show 3 * (pyLen t / 3) ≤ pyLen t
    omega
  · show pyLen t < 3 * (pyLen t / 3) + 3
    omega
  · intro s h
    exact Nat.div_le_div_right h

/-- Witness for `estimate_tokens_floor_div` on concrete strings. -/
theorem estimate_tokens_floor_div_witness :
    pyLen "ab" ≤ pyLen "abcde" ∧ estimate_tokens "ab" ≤ estimate_tokens "abcde" :=
  ⟨by decide, (estimate_tokens_floor_div "abcde").2.2.2 "ab" (by decide)⟩

/-! ### Regular-expression fragments

Each Python `re.match` pattern used by the compressors is hand-translated
into a prefix matcher over `List Char`.  `some rest` means the fragment
consumed a prefix, leaving `rest`. -/

/-- A literal fragment. -/
def dropLit (lit : String) (s : List Char) : Option (List Char) :=
  if lit.data.isPrefixOf s then some (s.drop lit.data.length) else none

/-- `p`-class, one or more, greedy (`[c]+`). -/
def dropMany1 (p : Char → Bool) : List Char → Option (List Char)
  | [] => none
  | c :: cs => if p c then some (cs.dropWhile p) else none

/-- `\s+`. -/
def dropSpaces1 (s : List Char) : Option (List Char) := dropMany1 isSpaceChar s

/-- `\s*`. -/
def dropSpaces0 (s : List Char) : List Char := s.dropWhile isSpaceChar

/-- One modifier-keyword alternative `kw\s+`. -/
def dropWordSpace (kw : String) (s : List Char) : Option (List Char) :=
  (dropLit kw s).bind dropSpaces1

/-- First alternative of `alts` whose `kw\s+` matches at the head. -/
def findAlt (alts : List String) (s : List Char) : Option (List Char) :=
  match alts with
  | [] => none
  | kw :: rest =>
    match dropWordSpace kw s with
    | some r => some r
    | none => findAlt rest s

/-- All suffixes reachable by consuming iterations of
`(?:kw1\s+|kw2\s+|...)*`; trying the continuation at each of them realises
the regex's backtracking for such a star.  Every iteration consumes at
least one character, so `s.length` steps of fuel suffice. -/
def modSuffixesAux (alts : List String) : Nat → List Char → List (List Char)
  | 0, s => [s]
  | fuel + 1, s =>
    s :: (match findAlt alts s with
      | none => []
      | some r => modSuffixesAux alts fuel r)

/-- The suffix list entered with sufficient fuel. -/
def modSuffixes (alts : List String) (s : List Char) : List (List Char) :=
  modSuffixesAux alts s.length s

/-- `(?:kw1\s+|...)*` followed by the continuation `after`. -/
def matchModsThen (alts : List String) (after : List Char → Bool) (s : List Char) : Bool :=
  (modSuffixes alts s).any after

/-! ### compress_python -/

/-- `^\s*(?:import|from)\s+`. -/
def matchPyImport (s : String) : Bool :=
  let t := dropSpaces0 s.data
  (dropWordSpace "import" t).isSome || (dropWordSpace "from" t).isSome

/-- `^\s*class\s+(\w+)`. -/
def matchPyClass (s : String) : Bool :=
  match dropWordSpace "class" (dropSpaces0 s.data) with
  | some r => (dropMany1 isWordChar r).isSome
  | none => false

/-- `def\s+(\w+)\s*\(` (continuation of the function pattern). -/
def pyDefTail (r : List Char) : Bool :=
  match (dropWordSpace "def" r).bind (dropMany1 isWordChar) with
  | some u => (dropLit "(" (dropSpaces0 u)).isSome
  | none => false

/-- `^\s*(?:async\s+)?def\s+(\w+)\s*\(`. -/
def matchPyFunction (s : String) : Bool :=
  let t := dropSpaces0 s.data
  pyDefTail t ||
    (match dropWordSpace "async" t with
     | some r => pyDefTail r
     | none => false)

/-- `^\s*return\s+`. -/
def matchPyReturn (s : String) : Bool :=
  (dropWordSpace "return" (dropSpaces0 s.data)).isSome

/-- `^\s*@\w+`. -/
def matchPyDecorator (s : String) : Bool :=
  ((dropLit "@" (dropSpaces0 s.data)).bind (dropMany1 isWordChar)).isSome

/-- The mutable locals of `compress_python`'s loop. -/
structure PyState where
  imports : List String
  pending_decorators : List String
  extracted : List String
deriving Repr, DecidableEq

/-- Multi-line signature capture: starting from `line`, take following
lines while `')' not in` them, then the first line containing `')'`. -/
def pyJoinSig (line : String) (rest : List String) : String :=
  let pre := rest.takeWhile fun l => !pyContains l ")"
  match rest.drop pre.length with
  | [] => joinLines (line :: pre)
  | l :: _ => joinLines (line :: (pre ++ [l]))

/-- One iteration of `compress_python`'s `for i, line in enumerate(lines)`
loop; `rest` is the lines after `line` (used only for the multi-line
signature lookahead, which the Python loop does not mark as consumed). -/
def pythonStep (rest : List String) (line : String) (st : PyState) : PyState :=
  let stripped := pyStrip line
  if pyStartsWith stripped "#" || stripped = "" then st
  else if matchPyImport stripped then
    { st with imports := st.imports ++ [stripped] }
  else if matchPyDecorator stripped then
    { st with pending_decorators := st.pending_decorators ++ [line] }
  else if matchPyClass stripped then
    { st with extracted := st.extracted ++ st.pending_decorators ++ [line],
              pending_decorators := [] }
  else if matchPyFunction stripped then
    let full_sig :=
      if pyContains stripped "(" && !pyContains stripped ")" then pyJoinSig line rest else line
    { st with extracted := st.extracted ++ st.pending_decorators ++ [full_sig],
              pending_decorators := [] }
  else if matchPyReturn stripped then
    { st with pending_decorators := [],
              extracted := st.extracted ++
                [if pyLen stripped > 80 then
                  pyTake line (pyLen line - pyLen stripped) ++ "return ..."
                 else line] }
  else
    { st with pending_decorators := [] }

/-- The whole loop of `compress_python`. -/
def pythonLoop : List String → PyState → PyState
  | [], st => st
  | line :: rest, st => pythonLoop rest (pythonStep rest line st)

/-- `compress_python`: structural extraction for Python sources. -/
def compress_python (content : String) : String :=
  let st := pythonLoop (splitLines content) { imports := [], pending_decorators := [], extracted := [] }
  let result :=
    (if st.imports.length > 0 then
      ["#imports:"] ++ (st.imports.take 15).map (fun imp => "#  " ++ imp) ++
        (if st.imports.length > 15 then
          ["#  ...and " ++ toString (st.imports.length - 15) ++ " more imports"]
         else []) ++ [""]
     else []) ++ st.extracted
  joinLines result

/-- C7 (amended).  In `compress_python`: (i) blank lines and `#`-comment
lines leave the whole state — in particular the pending-decorator queue —
untouched; (ii) for any other line, queued decorators are flushed
immediately before a class or function header and the queue is cleared,
and any intervening line that is not an import, not a decorator and not a
class/function header clears the queue without attaching it (the only
lines it may emit are truncated-or-verbatim return statements). -/
theorem compress_python_decorator_queue :
    (∀ (rest : List String) (line : String) (st : PyState),
       (pyStartsWith (pyStrip line) "#" = true ∨ pyStrip line = "") →
         pythonStep rest line st = st) ∧
    (∀ (rest : List String) (line : String) (st : PyState),
       ¬(pyStartsWith (pyStrip line) "#" = true ∨ pyStrip line = "") →
       matchPyImport (pyStrip line) = false →
       matchPyDecorator (pyStrip line) = false →
         ((matchPyClass (pyStrip line) = true →
             (pythonStep rest line st).extracted =
               st.extracted ++ st.pending_decorators ++ [line] ∧
             (pythonStep rest line st).pending_decorators = []) ∧
          (matchPyClass (pyStrip line) = false → matchPyFunction (pyStrip line) = true →
             (pythonStep rest line st).extracted =
               st.extracted ++ st.pending_decorators ++
                 [if pyContains (pyStrip line) "(" && !pyContains (pyStrip line) ")" then
                    pyJoinSig line rest else line] ∧
             (pythonStep rest line st).pending_decorators = []) ∧
          (matchPyClass (pyStrip line) = false → matchPyFunction (pyStrip line) = false →
             (pythonStep rest line st).pending_decorators = [] ∧
             ((pythonStep rest line st).extracted = st.extracted ∨
              (pythonStep rest line st).extracted = st.extracted ++
                [if pyLen (pyStrip line) > 80 then
                   pyTake line (pyLen line - pyLen (pyStrip line)) ++ "return ..."
                 else line])))) := by
  constructor
  · intro rest line st h
    unfold pythonStep
    rw [if_pos]
    rcases h with h | h
    · simp [h]
    · simp [h]
  · intro rest line st hnb hni hnd
    have hb : ¬ ((pyStartsWith (pyStrip line) "#" || pyStrip line = "") = true) := by
      simp only [Bool.or_eq_true, decide_eq_true_eq]
      exact hnb
    refine ⟨?_, ?_, ?_⟩
    · intro hcl
      unfold pythonStep
      rw [if_neg (by simp [hb]), if_neg (by simp [hni]), if_neg (by simp [hnd]),
        if_pos (by simp [hcl])]
      exact ⟨by simp, rfl⟩
    · intro hcl hfn
      unfold pythonStep
      rw [if_neg (by simp [hb]), if_neg (by simp [hni]), if_neg (by simp [hnd]),
        if_neg (by simp [hcl]), if_pos (by simp [hfn])]
      exact ⟨by simp, rfl⟩
    · intro hcl hfn
      unfold pythonStep
      rw [if_neg (by simp [hb]), if_neg (by simp [hni]), if_neg (by simp [hnd]),
        if_neg (by simp [hcl]), if_neg (by simp [hfn])]
      by_cases hr : matchPyReturn (pyStrip line) = true
      · rw [if_pos (by simp [hr])]
        exact ⟨rfl, Or.inr (by simp)⟩
      · rw [if_neg (by simp at hr; simp [hr])]
        exact ⟨rfl, Or.inl rfl⟩

/-- Witness for `compress_python_decorator_queue`: the queued `@dec` is
flushed before `def f():` and the queue cleared. -/
theorem compress_python_decorator_queue_witness :
    matchPyFunction (pyStrip "def f():") = true ∧
    ((pythonStep [] "def f():"
        { imports := [], pending_decorators := ["@dec"], extracted := [] }).extracted =
      [] ++ ["@dec"] ++
        [if pyContains (pyStrip "def f():") "(" && !pyContains (pyStrip "def f():") ")" then
           pyJoinSig "def f():" [] else "def f():"] ∧
     (pythonStep [] "def f():"
        { imports := [], pending_decorators := ["@dec"], extracted := [] }).pending_decorators =
       []) :=
  ⟨by decide,
   (compress_python_decorator_queue.2 [] "def f():"
       { imports := [], pending_decorators := ["@dec"], extracted := [] }
       (by decide) (by decide) (by decide)).2.1 (by decide) (by decide)⟩

/-- C7 counterexample to the claim as stated: a `#`-comment line is
neither a decorator nor a class/function declaration nor an import, yet it
does not clear the pending-decorator queue — the queue survives it and the
decorator is still attached to the next `def`. -/
theorem compress_python_comment_keeps_queue_cex :
    matchPyDecorator (pyStrip "# note") = false ∧
    matchPyClass (pyStrip "# note") = false ∧
    matchPyFunction (pyStrip "# note") = false ∧
    matchPyImport (pyStrip "# note") = false ∧
    (pythonStep [] "# note"
        { imports := [], pending_decorators := ["@dec"], extracted := [] }).pending_decorators =
      ["@dec"] ∧
    compress_python "@dec\n# note\ndef f():" = "@dec\ndef f():" := by decide

/-! ### compress_graphql -/

/-- `re.sub(r'[ \t]+', ' ', line)`: collapse runs of spaces and tabs to a
single space (fuelled; one character is consumed per step). -/
def collapseSpaceTabAux : Nat → List Char → List Char
  | 0, _ => []
  | fuel + 1, s =>
    match s with
    | [] => []
    | c :: cs =>
      if c = ' ' ∨ c = '\t' then
        ' ' :: collapseSpaceTabAux fuel (cs.dropWhile fun d => d = ' ' || d = '\t')
      else c :: collapseSpaceTabAux fuel cs

/-- `re.sub(r'[ \t]+', ' ', line)` with sufficient fuel. -/
def collapseSpaceTab (s : List Char) : List Char := collapseSpaceTabAux s.length s

/-- The `while i < len(lines)` loop of `compress_graphql`; the index
advances by one in every branch, so it is recursion on the line list. -/
def graphqlLoop : List String → Bool → Bool → List String → List String
  | [], _, _, result => result
  | line :: rest, in_docstring, prev_blank, result =>
    let stripped := pyStrip line
    if in_docstring then
      graphqlLoop rest (!pyContains stripped "\"\"\"") prev_blank result
    else if pyStartsWith stripped "\"\"\"" then
      if pyCount stripped "\"\"\"" ≥ 2 then graphqlLoop rest false prev_blank result
      else graphqlLoop rest true prev_blank result
    else if pyStartsWith stripped "#" then
      graphqlLoop rest in_docstring prev_blank result
    else if pyContains stripped "#" &&
        (pyCount ⟨stripped.data.takeWhile (· ≠ '#')⟩ "\"" % 2 = 0 : Bool) then
      -- inline comment: the comment-free remainder decides emptiness only
      let remainder := pyRstrip ⟨stripped.data.takeWhile (· ≠ '#')⟩
      if remainder = "" then graphqlLoop rest in_docstring prev_blank result
      else
        graphqlLoop rest in_docstring false
          (result ++ [if pyLen line > 120 then pyRstrip ⟨collapseSpaceTab line.data⟩
                      else pyRstrip line])
    else if stripped = "" then
      if !prev_blank && !result.isEmpty then
        graphqlLoop rest in_docstring true (result ++ [""])
      else
        graphqlLoop rest in_docstring prev_blank result
    else
      graphqlLoop rest in_docstring false
        (result ++ [if pyLen line > 120 then pyRstrip ⟨collapseSpaceTab line.data⟩
                    else pyRstrip line])

/-- Python `while result and not result[-1]: result.pop()`. -/
def dropTrailingEmpty (xs : List String) : List String :=
  (xs.reverse.dropWhile (· = "")).reverse

/-- Python `while result and not result[0]: result.pop(0)`. -/
def dropLeadingEmpty (xs : List String) : List String := xs.dropWhile (· = "")

/-- `compress_graphql`: light compression for GraphQL sources. -/
def compress_graphql (content : String) : String :=
  joinLines (dropLeadingEmpty (dropTrailingEmpty
    (graphqlLoop (splitLines content) false false [])))

/-- C8 (code bug).  On `"query \x7b\n\x7d  # done"` the second line has an
inline `#` with an even (zero) number of double quotes before it, and its
comment-free remainder `"\x7d"` is non-blank, yet the emitted line is the
original line with the comment still attached: the code computes the
stripped remainder only to decide emptiness and then appends `line`
unchanged, contradicting its own `remove comment portion` comment and its
docstring ("Removes: Single-line comments (#)").  Full-line comments,
blank-run collapsing and leading/trailing blank trimming do behave as the
claim describes. -/
theorem compress_graphql_inline_comment_kept :
    compress_graphql "query \x7b\n\x7d  # done" = "query \x7b\n\x7d  # done" ∧
    pyCount ⟨(pyStrip "\x7d  # done").data.takeWhile (· ≠ '#')⟩ "\"" % 2 = 0 ∧
    pyRstrip ⟨(pyStrip "\x7d  # done").data.takeWhile (· ≠ '#')⟩ = "\x7d" ∧
    compress_graphql "query \x7b\n# full line\n\x7d" = "query \x7b\n\x7d" ∧
    compress_graphql "a\n\n\n\nb" = "a\n\nb" ∧
    compress_graphql "\n\na\n\n" = "a" := by decide

/-! ### compress_typescript -/

/-- `kw\s+(\w+)`: a keyword, blanks, then an identifier. -/
def kwThenWord (kw : String) (r : List Char) : Bool :=
  match dropWordSpace kw r with
  | some u => (dropMany1 isWordChar u).isSome
  | none => false

/-- Optional `(?:kw\s+)?` before the continuation `after`. -/
def optWordSpace (kw : String) (after : List Char → Bool) (s : List Char) : Bool :=
  after s ||
    (match dropWordSpace kw s with
     | some r => after r
     | none => false)

/-- `^\s*import\s+` (TypeScript). -/
def matchTsImport (s : String) : Bool :=
  (dropWordSpace "import" (dropSpaces0 s.data)).isSome

/-- `^\s*(?:export\s+)?interface\s+(\w+)`. -/
def matchTsInterface (s : String) : Bool :=
  optWordSpace "export" (kwThenWord "interface") (dropSpaces0 s.data)

/-- `^\s*(?:export\s+)?type\s+(\w+)`. -/
def matchTsType (s : String) : Bool :=
  optWordSpace "export" (kwThenWord "type") (dropSpaces0 s.data)

/-- `^\s*(?:export\s+)?(?:abstract\s+)?class\s+(\w+)`. -/
def matchTsClass (s : String) : Bool :=
  optWordSpace "export" (optWordSpace "abstract" (kwThenWord "class")) (dropSpaces0 s.data)

/-- `^\s*(?:export\s+)?(?:async\s+)?function\s+(\w+)`. -/
def matchTsFunction (s : String) : Bool :=
  optWordSpace "export" (optWordSpace "async" (kwThenWord "function")) (dropSpaces0 s.data)

/-- `\([^)]*\)` then the rest of the arrow pattern
`\s*(?::\s*[^=]+)?\s*=>`: the optional return-type group can stop at any
point before the first `=`, which must begin `=>`. -/
def tsParenArrow (w : List Char) : Bool :=
  match dropLit "(" w with
  | none => false
  | some a =>
    match dropLit ")" (a.dropWhile (· ≠ ')')) with
    | none => false
    | some c =>
      let d := dropSpaces0 c
      "=>".data.isPrefixOf d ||
        (match dropLit ":" d with
         | none => false
         | some e0 =>
           let before := e0.takeWhile (· ≠ '=')
           !before.isEmpty && "=>".data.isPrefixOf (e0.drop before.length))

/-- `^\s*(?:export\s+)?(?:const|let|var)\s+(\w+)\s*=\s*(?:async\s+)?\([^)]*\)\s*(?::\s*[^=]+)?\s*=>`. -/
def matchTsArrowFunc (s : String) : Bool :=
  optWordSpace "export"
    (fun r =>
      match (match dropWordSpace "const" r with
             | some u => some u
             | none => match dropWordSpace "let" r with
                       | some u => some u
                       | none => dropWordSpace "var" r) with
      | none => false
      | some u =>
        match dropMany1 isWordChar u with
        | none => false
        | some v =>
          match dropLit "=" (dropSpaces0 v) with
          | none => false
          | some w =>
            let w2 := dropSpaces0 w
            tsParenArrow w2 ||
              (match dropWordSpace "async" w2 with
               | some w3 => tsParenArrow w3
               | none => false))
    (dropSpaces0 s.data)

/-- After `(?::\s*` and one consumed non-blank character: either stop the
`\S+` run here (then `\s*\{` must follow) or consume another non-blank
character. -/
def tsAfterOne (r : List Char) : Bool :=
  (dropLit "\x7b" (dropSpaces0 r)).isSome ||
    (match r with
     | [] => false
     | c :: cs => !isSpaceChar c && tsAfterOne cs)

/-- `(\w+)\s*\([^)]*\)\s*(?::\s*\S+)?\s*\{` (method continuation). -/
def tsMethodTail (r : List Char) : Bool :=
  match dropMany1 isWordChar r with
  | none => false
  | some u =>
    match dropLit "(" (dropSpaces0 u) with
    | none => false
    | some a =>
      match dropLit ")" (a.dropWhile (· ≠ ')')) with
      | none => false
      | some c =>
        let d := dropSpaces0 c
        (dropLit "\x7b" d).isSome ||
          (match dropLit ":" d with
           | none => false
           | some e0 =>
             match dropSpaces0 e0 with
             | [] => false
             | c1 :: cs1 => !isSpaceChar c1 && tsAfterOne cs1)

/-- `^\s*(?:public\s+|private\s+|protected\s+|static\s+|async\s+|readonly\s+)*(\w+)\s*\([^)]*\)\s*(?::\s*\S+)?\s*\{`. -/
def matchTsMethod (s : String) : Bool :=
  matchModsThen ["public", "private", "protected", "static", "async", "readonly"]
    tsMethodTail (dropSpaces0 s.data)

/-- `^\s*return\s+`. -/
def matchTsReturn (s : String) : Bool :=
  (dropWordSpace "return" (dropSpaces0 s.data)).isSome

/-- The mutable locals of `compress_typescript`'s loop. -/
structure TsState where
  imports : List String
  extracted : List String
  in_multiline_comment : Bool
deriving Repr, DecidableEq

/-- One iteration of `compress_typescript`'s line loop. -/
def tsStep (line : String) (st : TsState) : TsState :=
  let stripped := pyStrip line
  if pyContains stripped "/*" && !pyContains stripped "*/" then
    { st with in_multiline_comment := true }
  else if pyContains stripped "*/" then
    { st with in_multiline_comment := false }
  else if st.in_multiline_comment then st
  else if pyStartsWith stripped "//" || stripped = "" then st
  else if matchTsImport stripped then { st with imports := st.imports ++ [stripped] }
  else if matchTsInterface stripped then { st with extracted := st.extracted ++ [line] }
  else if matchTsType stripped then { st with extracted := st.extracted ++ [line] }
  else if matchTsClass stripped then { st with extracted := st.extracted ++ [line] }
  else if matchTsFunction stripped then { st with extracted := st.extracted ++ [line] }
  else if matchTsArrowFunc stripped then { st with extracted := st.extracted ++ [line] }
  else if matchTsMethod stripped then { st with extracted := st.extracted ++ [line] }
  else if matchTsReturn stripped then
    { st with extracted := st.extracted ++
        [if pyLen stripped > 80 then
          pyTake line (pyLen line - pyLen stripped) ++ "return ..."
         else line] }
  else st

/-- `compress_typescript`: structural extraction for TS/JS sources. -/
def compress_typescript (content : String) : String :=
  let st := (splitLines content).foldl (fun st line => tsStep line st)
    { imports := [], extracted := [], in_multiline_comment := false }
  let result :=
    (if st.imports.length > 0 then
      ["//imports:"] ++
        ((st.imports.take 10).map fun imp =>
          if pyLen imp > 80 then "//  " ++ pyTake imp 80 ++ "..." else "//  " ++ imp) ++
        (if st.imports.length > 10 then
          ["//  ...and " ++ toString (st.imports.length - 10) ++ " more imports"]
         else []) ++ [""]
     else []) ++ st.extracted
  joinLines result

/-! ### compress_aidl -/

/-- `^\s*package\s+[\w.]+;`. -/
def matchAidlPackage (s : String) : Bool :=
  match (dropWordSpace "package" (dropSpaces0 s.data)).bind
      (dropMany1 fun c => isWordChar c || c = '.') with
  | some u => (dropLit ";" u).isSome
  | none => false

/-- `^\s*import\s+[\w.]+;`. -/
def matchAidlImport (s : String) : Bool :=
  match (dropWordSpace "import" (dropSpaces0 s.data)).bind
      (dropMany1 fun c => isWordChar c || c = '.') with
  | some u => (dropLit ";" u).isSome
  | none => false

/-- `^\s*(?:oneway\s+)?interface\s+(\w+)`. -/
def matchAidlInterface (s : String) : Bool :=
  optWordSpace "oneway" (kwThenWord "interface") (dropSpaces0 s.data)

/-- `^\s*parcelable\s+(\w+)`. -/
def matchAidlParcelable (s : String) : Bool :=
  kwThenWord "parcelable" (dropSpaces0 s.data)

/-- `\s+(\w+)\s*\(` after the return type of the method pattern. -/
def aidlAfterType (v : List Char) : Bool :=
  match (dropSpaces1 v).bind (dropMany1 isWordChar) with
  | some x => (dropLit "(" (dropSpaces0 x)).isSome
  | none => false

/-- `^\s*(?:oneway\s+)?(?:\w+(?:<[^>]+>)?)\s+(\w+)\s*\(`. -/
def aidlMethodTail (r : List Char) : Bool :=
  match dropMany1 isWordChar r with
  | none => false
  | some u =>
    aidlAfterType u ||
      (match dropLit "<" u with
       | none => false
       | some a =>
         match a with
         | [] => false
         | c0 :: _ =>
           if c0 = '>' then false
           else
             match dropLit ">" (a.dropWhile (· ≠ '>')) with
             | some v => aidlAfterType v
             | none => false)

/-- The AIDL method pattern with its optional `oneway`. -/
def matchAidlMethod (s : String) : Bool :=
  optWordSpace "oneway" aidlMethodTail (dropSpaces0 s.data)

/-- `compress_aidl`: allow-list filtering for AIDL sources. -/
def compress_aidl (content : String) : String :=
  joinLines ((splitLines content).filterMap fun line =>
    let stripped := pyStrip line
    if pyStartsWith stripped "//" || pyStartsWith stripped "/*" || stripped = "" then none
    else if matchAidlPackage stripped || matchAidlImport stripped ||
        matchAidlInterface stripped || matchAidlParcelable stripped ||
        matchAidlMethod stripped then some line
    else none)

/-! ### compress_groovy -/

/-- One alternative of `^\s*(?:id|alias)\s*['"\(]`. -/
def groovyPlugOne (kw : String) (t : List Char) : Bool :=
  match dropLit kw t with
  | some r =>
    match dropSpaces0 r with
    | c :: _ => c = '\'' || c = '"' || c = '('
    | [] => false
  | none => false

/-- `^\s*(?:id|alias)\s*['"\(]`. -/
def matchGroovyPlugins (s : String) : Bool :=
  groovyPlugOne "id" (dropSpaces0 s.data) || groovyPlugOne "alias" (dropSpaces0 s.data)

/-- `^\s*apply\s+`. -/
def matchGroovyApply (s : String) : Bool :=
  (dropWordSpace "apply" (dropSpaces0 s.data)).isSome

/-- `^\s*dependencies\s*\{`. -/
def matchGroovyDepsStart (s : String) : Bool :=
  match dropLit "dependencies" (dropSpaces0 s.data) with
  | some r => (dropLit "\x7b" (dropSpaces0 r)).isSome
  | none => false

/-- One alternative of the dependency-verb pattern: `kw\s*[\(\']`. -/
def groovyDepOne (kw : String) (t : List Char) : Bool :=
  match dropLit kw t with
  | some r =>
    match dropSpaces0 r with
    | c :: _ => c = '(' || c = '\''
    | [] => false
  | none => false

/-- `^\s*(?:implementation|api|compileOnly|runtimeOnly|testImplementation|androidTestImplementation|kapt|ksp|annotationProcessor)\s*[\(\']`. -/
def matchGroovyDependency (s : String) : Bool :=
  ["implementation", "api", "compileOnly", "runtimeOnly", "testImplementation",
    "androidTestImplementation", "kapt", "ksp", "annotationProcessor"].any
    fun kw => groovyDepOne kw (dropSpaces0 s.data)

/-- `[\(\']?(\w+)` (task-name continuation). -/
def groovyTaskTail (d : List Char) : Bool :=
  (dropMany1 isWordChar d).isSome ||
    (match d with
     | c :: cs => (c = '(' || c = '\'') && (dropMany1 isWordChar cs).isSome
     | [] => false)

/-- One alternative of `^\s*(?:task|tasks\.register)\s*[\(\']?(\w+)`. -/
def groovyTaskOne (kw : String) (t : List Char) : Bool :=
  match dropLit kw t with
  | some r => groovyTaskTail (dropSpaces0 r)
  | none => false

/-- `^\s*(?:task|tasks\.register)\s*[\(\']?(\w+)`. -/
def matchGroovyTask (s : String) : Bool :=
  groovyTaskOne "task" (dropSpaces0 s.data) ||
    groovyTaskOne "tasks.register" (dropSpaces0 s.data)

/-- `^\s*(?:def|void|String|int|boolean)\s+(\w+)\s*\(`. -/
def matchGroovyFunction (s : String) : Bool :=
  ["def", "void", "String", "int", "boolean"].any fun kw =>
    match dropWordSpace kw (dropSpaces0 s.data) with
    | some u =>
      match dropMany1 isWordChar u with
      | some v => (dropLit "(" (dropSpaces0 v)).isSome
      | none => false
    | none => false

/-- `^\s*android\s*\{`. -/
def matchGroovyAndroid (s : String) : Bool :=
  match dropLit "android" (dropSpaces0 s.data) with
  | some r => (dropLit "\x7b" (dropSpaces0 r)).isSome
  | none => false

/-- `^\s*(?:debug|release|buildTypes)\s*\{?` — the trailing `\s*\{?` always
matches, so this is a prefix test on the alternatives. -/
def matchGroovyBuildTypes (s : String) : Bool :=
  (dropLit "debug" (dropSpaces0 s.data)).isSome ||
    (dropLit "release" (dropSpaces0 s.data)).isSome ||
    (dropLit "buildTypes" (dropSpaces0 s.data)).isSome

/-- The mutable locals of `compress_groovy`'s loop. -/
structure GroovyState where
  extracted : List String
  in_dependencies : Bool
  brace_depth : Int
deriving Repr, DecidableEq

/-- One iteration of `compress_groovy`'s line loop. -/
def groovyStep (line : String) (st : GroovyState) : GroovyState :=
  let stripped := pyStrip line
  if pyStartsWith stripped "//" || stripped = "" then st
  else
    let st := { st with brace_depth :=
      st.brace_depth + (pyCount stripped "\x7b" : Int) - (pyCount stripped "\x7d" : Int) }
    if matchGroovyDepsStart stripped then
      { st with in_dependencies := true, extracted := st.extracted ++ [line] }
    else if st.in_dependencies then
      if st.brace_depth = 0 then
        { st with in_dependencies := false, extracted := st.extracted ++ ["\x7d"] }
      else if matchGroovyDependency stripped then
        { st with extracted := st.extracted ++ [line] }
      else st
    else if matchGroovyPlugins stripped then { st with extracted := st.extracted ++ [line] }
    else if matchGroovyApply stripped then { st with extracted := st.extracted ++ [line] }
    else if matchGroovyTask stripped then { st with extracted := st.extracted ++ [line] }
    else if matchGroovyFunction stripped then { st with extracted := st.extracted ++ [line] }
    else if matchGroovyAndroid stripped then { st with extracted := st.extracted ++ [line] }
    else if matchGroovyBuildTypes stripped then { st with extracted := st.extracted ++ [line] }
    else st

/-- `compress_groovy`: dependency-block and declaration extraction for
Groovy/Gradle sources. -/
def compress_groovy (content : String) : String :=
  joinLines ((splitLines content).foldl (fun st line => groovyStep line st)
    { extracted := [], in_dependencies := false, brace_depth := 0 }).extracted

/-! ### compress_kotlin: patterns -/

/-- `^\s*package\s+[\w.]+`. -/
def matchKtPackage (s : String) : Bool :=
  ((dropWordSpace "package" (dropSpaces0 s.data)).bind
    (dropMany1 fun c => isWordChar c || c = '.')).isSome

/-- `^\s*import\s+`. -/
def matchKtImport (s : String) : Bool :=
  (dropWordSpace "import" (dropSpaces0 s.data)).isSome

/-- `^\s*@\w+`. -/
def matchKtAnnotation (s : String) : Bool :=
  ((dropLit "@" (dropSpaces0 s.data)).bind (dropMany1 isWordChar)).isSome

/-- `(?:class|object)\s+(\w+)` (continuation of the class pattern). -/
def ktClassObjTail (r : List Char) : Bool :=
  kwThenWord "class" r || kwThenWord "object" r

/-- `^\s*(?:public\s+|private\s+|protected\s+|internal\s+|open\s+|abstract\s+|sealed\s+|data\s+|enum\s+|annotation\s+|value\s+|inner\s+)*(?:class|object)\s+(\w+)`. -/
def matchKtClass (s : String) : Bool :=
  matchModsThen ["public", "private", "protected", "internal", "open", "abstract",
    "sealed", "data", "enum", "annotation", "value", "inner"]
    ktClassObjTail (dropSpaces0 s.data)

/-- `^\s*(?:public\s+|private\s+|internal\s+)*enum\s+class\s+(\w+)`. -/
def matchKtEnumClass (s : String) : Bool :=
  matchModsThen ["public", "private", "internal"]
    (fun r =>
      match dropWordSpace "enum" r with
      | some u => kwThenWord "class" u
      | none => false)
    (dropSpaces0 s.data)

/-- `^\s*(?:public\s+|private\s+|internal\s+)*sealed\s+(?:class|interface)\s+(\w+)`. -/
def matchKtSealedClass (s : String) : Bool :=
  matchModsThen ["public", "private", "internal"]
    (fun r =>
      match dropWordSpace "sealed" r with
      | some u => kwThenWord "class" u || kwThenWord "interface" u
      | none => false)
    (dropSpaces0 s.data)

/-- `^\s*(?:public\s+|private\s+|protected\s+|internal\s+|sealed\s+|fun\s+)*interface\s+(\w+)`. -/
def matchKtInterface (s : String) : Bool :=
  matchModsThen ["public", "private", "protected", "internal", "sealed", "fun"]
    (kwThenWord "interface") (dropSpaces0 s.data)

/-- `(\w+)\s*\(` (function-name continuation). -/
def ktFunName (u : List Char) : Bool :=
  match dropMany1 isWordChar u with
  | some v => (dropLit "(" (dropSpaces0 v)).isSome
  | none => false

/-- `fun\s+(?:<[^>]+>\s*)?(\w+)\s*\(` (function-pattern continuation). -/
def ktFunTail (r : List Char) : Bool :=
  match dropWordSpace "fun" r with
  | none => false
  | some u =>
    ktFunName u ||
      (match dropLit "<" u with
       | none => false
       | some a =>
         match a with
         | [] => false
         | c0 :: _ =>
           if c0 = '>' then false
           else
             match dropLit ">" (a.dropWhile (· ≠ '>')) with
             | some v => ktFunName (dropSpaces0 v)
             | none => false)

/-- The Kotlin function pattern with its modifier star. -/
def matchKtFunction (s : String) : Bool :=
  matchModsThen ["public", "private", "protected", "internal", "open", "override",
    "suspend", "inline", "abstract", "final", "operator", "infix", "tailrec",
    "external", "actual", "expect"]
    ktFunTail (dropSpaces0 s.data)

/-- `^\s*(?:public\s+|...|lateinit\s+|actual\s+|expect\s+)*(?:val|var)\s+(\w+)`. -/
def matchKtProperty (s : String) : Bool :=
  matchModsThen ["public", "private", "protected", "internal", "open", "override",
    "abstract", "final", "const", "lateinit", "actual", "expect"]
    (fun r => kwThenWord "val" r || kwThenWord "var" r) (dropSpaces0 s.data)

/-- `^\s*companion\s+object`. -/
def matchKtCompanion (s : String) : Bool :=
  ((dropWordSpace "companion" (dropSpaces0 s.data)).bind (dropLit "object")).isSome

/-- `^\s*(?:public\s+|private\s+|protected\s+|internal\s+)*constructor\s*\(`. -/
def matchKtConstructor (s : String) : Bool :=
  matchModsThen ["public", "private", "protected", "internal"]
    (fun r =>
      match dropLit "constructor" r with
      | some u => (dropLit "(" (dropSpaces0 u)).isSome
      | none => false)
    (dropSpaces0 s.data)

/-- `^\s*init\s*\{`. -/
def matchKtInit (s : String) : Bool :=
  match dropLit "init" (dropSpaces0 s.data) with
  | some r => (dropLit "\x7b" (dropSpaces0 r)).isSome
  | none => false

/-- `^\s*typealias\s+(\w+)`. -/
def matchKtTypealias (s : String) : Bool :=
  kwThenWord "typealias" (dropSpaces0 s.data)

/-- `^\s*(?:viewModelScope|lifecycleScope|CoroutineScope|GlobalScope)\s*\.\s*launch`. -/
def matchKtScopeLaunch (s : String) : Bool :=
  ["viewModelScope", "lifecycleScope", "CoroutineScope", "GlobalScope"].any fun kw =>
    match dropLit kw (dropSpaces0 s.data) with
    | some r =>
      match dropLit "." (dropSpaces0 r) with
      | some u => (dropLit "launch" (dropSpaces0 u)).isSome
      | none => false
    | none => false

/-- `.collect\s*\{` somewhere after the first character. -/
def chainDotCollect (suf : List Char) : Bool :=
  match dropLit ".collect" suf with
  | some u => (dropLit "\x7b" (dropSpaces0 u)).isSome
  | none => false

/-- `^\s*\w+.*\.collect\s*\{`. -/
def matchKtFlowCollect (s : String) : Bool :=
  match dropSpaces0 s.data with
  | [] => false
  | c :: cs => isWordChar c && cs.tails.any chainDotCollect

/-- `.invoke\s*\(` somewhere after the first character. -/
def chainDotInvoke (suf : List Char) : Bool :=
  match dropLit ".invoke" suf with
  | some u => (dropLit "(" (dropSpaces0 u)).isSome
  | none => false

/-- `^\s*\w+.*\.invoke\s*\(`. -/
def matchKtUseCaseInvoke (s : String) : Bool :=
  match dropSpaces0 s.data with
  | [] => false
  | c :: cs => isWordChar c && cs.tails.any chainDotInvoke

/-- `^\s*when\s*\(`. -/
def matchKtWhenStatement (s : String) : Bool :=
  match dropLit "when" (dropSpaces0 s.data) with
  | some r => (dropLit "(" (dropSpaces0 r)).isSome
  | none => false

/-- `^\s*is\s+\w+`. -/
def matchKtWhenBranch (s : String) : Bool :=
  kwThenWord "is" (dropSpaces0 s.data)

/-- `^\s*_\w+\s*[.=]`. -/
def matchKtStateUpdate (s : String) : Bool :=
  match (dropLit "_" (dropSpaces0 s.data)).bind (dropMany1 isWordChar) with
  | some u =>
    match dropSpaces0 u with
    | c :: _ => c = '.' || c = '='
    | [] => false
  | none => false

/-! ### compress_kotlin: state machine -/

/-- The mutable locals of `compress_kotlin`'s main loop. -/
structure KtState where
  extracted : List String
  imports : List String
  pending_annotations : List String
  processed_lines : List Nat
  in_multiline_comment : Bool
  brace_depth : Int
  in_init_block : Bool
  init_brace_depth : Int
  init_content : List String
deriving Repr, DecidableEq

/-- The state at the top of the loop. -/
def ktInit : KtState :=
  { extracted := [], imports := [], pending_annotations := [], processed_lines := [],
    in_multiline_comment := false, brace_depth := 0, in_init_block := false,
    init_brace_depth := 0, init_content := [] }

/-- Python `body_lines[-1]` under a non-emptiness guard. -/
def pyLast (xs : List String) : String := xs.getLastD ""

/-- The `while j < len(lines) and ')' not in lines[j]` collection loop used
by multi-line annotation/constructor/signature joins: the collected index
list and the index the loop stopped at.  One index is consumed per step. -/
def takeNoParen (lines : List String) : Nat → Nat → (List Nat × Nat)
  | 0, j => ([], j)
  | fuel + 1, j =>
    if j < lines.length then
      if !pyContains (lineAt lines j) ")" then
        let r := takeNoParen lines fuel (j + 1)
        (j :: r.1, r.2)
      else ([], j)
    else ([], j)

/-- The `while j < n and depth == 0` opening-brace search: the first
index from `j` whose stripped line contains an opening brace. -/
def findBraceIdx (lines : List String) : Nat → Nat → Option Nat
  | 0, _ => none
  | fuel + 1, j =>
    if j < lines.length then
      if pyContains (pyStrip (lineAt lines j)) "\x7b" then some j
      else findBraceIdx lines fuel (j + 1)
    else none

/-- The enum-entry loop (`until ; or first function/property`): lines to
emit and indices marked processed. -/
def enumEntries (lines : List String) : Nat → Nat → (List String × List Nat)
  | 0, _ => ([], [])
  | fuel + 1, j =>
    if j < lines.length then
      let l := lineAt lines j
      let s := pyStrip l
      if s = ";" then ([l], [j])
      else if matchKtFunction s || matchKtProperty s then ([], [j])
      else
        let keep := if s ≠ "" && !pyStartsWith s "//" then [l] else []
        if s = "\x7d" then (keep, [j])
        else
          let r := enumEntries lines fuel (j + 1)
          (keep ++ r.1, j :: r.2)
    else ([], [])

/-- The sealed-class body loop: nested class/object declarations while the
local depth stays positive. -/
def sealedScan (lines : List String) : Nat → Nat → Int → (List String × List Nat)
  | 0, _, _ => ([], [])
  | fuel + 1, j, depth =>
    if j < lines.length ∧ depth > 0 then
      let l := lineAt lines j
      let s := pyStrip l
      let depth2 := depth + (pyCount s "\x7b" : Int) - (pyCount s "\x7d" : Int)
      let keep := if matchKtClass s then ([l], [j]) else (([] : List String), ([] : List Nat))
      let r := sealedScan lines fuel (j + 1) depth2
      (keep.1 ++ r.1, keep.2 ++ r.2)
    else ([], [])

/-- The companion-object body loop: `const val`s, function signatures,
depth-1 properties and the closing brace. -/
def companionScan (lines : List String) : Nat → Nat → Int → (List String × List Nat)
  | 0, _, _ => ([], [])
  | fuel + 1, j, depth =>
    if j < lines.length ∧ depth > 0 then
      let l := lineAt lines j
      let s := pyStrip l
      let depth2 := depth + (pyCount s "\x7b" : Int) - (pyCount s "\x7d" : Int)
      let keep :=
        if pyContains s "const val" then [l]
        else if matchKtFunction s then [l]
        else if matchKtProperty s && depth2 = 1 then [l]
        else if s = "\x7d" && depth2 = 0 then [l]
        else []
      let r := companionScan lines fuel (j + 1) depth2
      (keep ++ r.1, j :: r.2)
    else ([], [])

/-- `while k < n and (blank or //)` lookahead used to find a body-opening
brace after an abstract-looking signature. -/
def skipBlankComment (lines : List String) : Nat → Nat → Nat
  | 0, k => k
  | fuel + 1, k =>
    if k < lines.length ∧
        (pyStrip (lineAt lines k) = "" ∨ pyStartsWith (pyStrip (lineAt lines k)) "//") then
      skipBlankComment lines fuel (k + 1)
    else k

/-- The function-body collection loop: non-blank, non-comment lines until
the brace depth returns to (or below) zero, plus the processed indices. -/
def bodyCollect (lines : List String) : Nat → Nat → Int → Bool → (List String × List Nat)
  | 0, _, _, _ => ([], [])
  | fuel + 1, j, depth, started =>
    if j < lines.length then
      let l := lineAt lines j
      let bs := pyStrip l
      let started2 := started || pyContains bs "\x7b"
      if started2 then
        let depth2 := depth + (pyCount bs "\x7b" : Int) - (pyCount bs "\x7d" : Int)
        let keep := if bs ≠ "" && !pyStartsWith bs "//" then [l] else []
        if depth2 ≤ 0 then (keep, [j])
        else
          let r := bodyCollect lines fuel (j + 1) depth2 true
          (keep ++ r.1, j :: r.2)
      else bodyCollect lines fuel (j + 1) depth started2
    else ([], [])

/-- The function-output builder (`#build function output: signature +
first N body lines + last few lines`): signature lines, first 8 body
lines, a truncation marker when more than 3 lines remain beyond them, the
last 3 lines deduplicated against the first 8, and a closing brace. -/
def buildFunctionOutput (func_lines body_lines : List String) : List String :=
  if body_lines.isEmpty then func_lines
  else
    let total_body : Int := body_lines.length
    let first_lines := body_lines.take 8
    let output_lines := func_lines ++ first_lines
    let remaining : Int := total_body - 8
    if remaining > 3 then
      let output_lines := output_lines ++
        ["        // ... (" ++ toString (remaining - 3) ++ " more lines)"]
      let last_lines :=
        if pyStrip (pyLast body_lines) = "\x7d" then
          (body_lines.drop (body_lines.length - 4)).dropLast
        else body_lines.drop (body_lines.length - 3)
      let output_lines := output_lines ++
        last_lines.filter fun ll => pyStrip ll ≠ "" && !first_lines.contains ll
      if pyStrip (pyLast body_lines) = "\x7d" then output_lines ++ [pyLast body_lines]
      else output_lines ++ ["    \x7d"]
    else if remaining > 0 then
      output_lines ++ body_lines.drop 8
    else output_lines

/-- Lines preserved from inside an `init` block (`#preserve important
patterns inside init`). -/
def ktInitLineAdds (stripped : String) : List String :=
  if stripped ≠ "" && !pyStartsWith stripped "//" then
    if matchKtScopeLaunch stripped then ["        " ++ stripped]
    else if matchKtFlowCollect stripped then ["        " ++ stripped]
    else if matchKtUseCaseInvoke stripped then ["        " ++ stripped]
    else if matchKtWhenStatement stripped then ["        " ++ stripped]
    else if matchKtWhenBranch stripped then ["            " ++ stripped]
    else if matchKtStateUpdate stripped then
      if pyLen stripped > 60 then ["                " ++ pyTake stripped 55 ++ "..."]
      else ["                " ++ stripped]
    else []
  else []

/-- The grouping key of one import line: the first two dot-separated
segments of the text after removing `import ` (one segment if there is no
dot). -/
def ktImportKey (imp : String) : String :=
  let parts := (splitOnChar '.' (pyReplace imp "import " "").data).map fun l => (⟨l⟩ : String)
  if parts.length ≥ 2 then parts.getD 0 "" ++ "." ++ parts.getD 1 ""
  else parts.getD 0 ""

/-- Append `imp` to the insertion-ordered group map under `key`
(`import_groups[key].append(imp)`). -/
def addToGroups (groups : List (String × List String)) (key imp : String) :
    List (String × List String) :=
  match groups with
  | [] => [(key, [imp])]
  | (k, v) :: rest =>
    if k = key then (k, v ++ [imp]) :: rest else (k, v) :: addToGroups rest key imp

/-- The insertion-ordered `import_groups` dict. -/
def buildGroups (imports : List String) : List (String × List String) :=
  imports.foldl (fun gs imp => addToGroups gs (ktImportKey imp) imp) []

/-- `import_groups[key]` (empty for an absent key; keys looked up below
always exist). -/
def groupLookup (groups : List (String × List String)) (key : String) : List String :=
  match groups with
  | [] => []
  | (k, v) :: rest => if k = key then v else groupLookup rest key

/-- Python `<=` on strings: code-point lexicographic order. -/
def charListLe : List Char → List Char → Bool
  | [], _ => true
  | _ :: _, [] => false
  | a :: as2, b :: bs2 => if a = b then charListLe as2 bs2 else decide (a < b)

/-- Python `<=` on strings. -/
def strLe (a b : String) : Bool := charListLe a.data b.data

/-- Insert into a `strLe`-sorted list. -/
def insertSorted (x : String) : List String → List String
  | [] => [x]
  | y :: ys => if strLe x y then x :: y :: ys else y :: insertSorted x ys

/-- Python `sorted(...)` on strings (insertion sort — the keys sorted here
are pairwise distinct, so any correct sort agrees with it). -/
def sortStrings (xs : List String) : List String := xs.foldr insertSorted []

/-- The `#condense imports at the top` epilogue of `compress_kotlin`. -/
def condenseKtImports (imports : List String) : List String :=
  if imports.length > 0 then
    let groups := buildGroups imports
    "//imports:" ::
      ((sortStrings (groups.map Prod.fst)).map fun group_key =>
        let group := groupLookup groups group_key
        if group.length > 3 then
          ["//  " ++ group_key ++ ".* (" ++ toString group.length ++ " imports)"]
        else group.map fun imp => "//  " ++ pyReplace imp "import " "").flatten ++ [""]
  else []

/-- The declaration-dispatch chain of `compress_kotlin`'s loop, reached by
lines that are outside comments and init blocks (brace depth already
updated). -/
def ktDispatch (lines : List String) (i : Nat) (line stripped : String)
    (open_braces close_braces : Int) (st : KtState) : KtState :=
  if matchKtPackage stripped then
    { st with extracted := st.extracted ++ [line, ""] }
  else if matchKtImport stripped then
    { st with imports := st.imports ++ [stripped] }
  else if matchKtAnnotation stripped then
    if pyContains stripped "(" && !pyContains stripped ")" then
      let r := takeNoParen lines lines.length (i + 1)
      let collected := r.1.map (lineAt lines)
      if r.2 < lines.length then
        { st with
          pending_annotations := st.pending_annotations ++
            [joinLines (line :: (collected ++ [lineAt lines r.2]))],
          processed_lines := st.processed_lines ++ r.1 ++ [r.2] }
      else
        { st with
          pending_annotations := st.pending_annotations ++ [joinLines (line :: collected)],
          processed_lines := st.processed_lines ++ r.1 }
    else { st with pending_annotations := st.pending_annotations ++ [line] }
  else if matchKtEnumClass stripped then
    let st := { st with
      extracted := st.extracted ++ st.pending_annotations ++ [line],
      pending_annotations := [],
      processed_lines := st.processed_lines ++ [i] }
    if open_braces - close_braces = 0 then
      match findBraceIdx lines lines.length (i + 1) with
      | some j0 =>
        let r := enumEntries lines lines.length (j0 + 1)
        { st with extracted := st.extracted ++ [lineAt lines j0] ++ r.1,
                  processed_lines := st.processed_lines ++ [j0] ++ r.2 }
      | none => st
    else
      let r := enumEntries lines lines.length (i + 1)
      { st with extracted := st.extracted ++ r.1,
                processed_lines := st.processed_lines ++ r.2 }
  else if matchKtSealedClass stripped then
    let st := { st with
      extracted := st.extracted ++ st.pending_annotations ++ [line],
      pending_annotations := [],
      processed_lines := st.processed_lines ++ [i] }
    if open_braces - close_braces = 0 then
      match findBraceIdx lines lines.length (i + 1) with
      | some j0 =>
        let r := sealedScan lines lines.length (j0 + 1) 1
        { st with extracted := st.extracted ++ r.1,
                  processed_lines := st.processed_lines ++ [j0] ++ r.2 }
      | none => st
    else
      let r := sealedScan lines lines.length (i + 1) (open_braces - close_braces)
      { st with extracted := st.extracted ++ r.1,
                processed_lines := st.processed_lines ++ r.2 }
  else if matchKtCompanion stripped then
    let st := { st with
      extracted := st.extracted ++ st.pending_annotations ++ [line],
      pending_annotations := [],
      processed_lines := st.processed_lines ++ [i] }
    if open_braces - close_braces = 0 then
      match findBraceIdx lines lines.length (i + 1) with
      | some j0 =>
        let r := companionScan lines lines.length (j0 + 1) 1
        { st with extracted := st.extracted ++ r.1,
                  processed_lines := st.processed_lines ++ [j0] ++ r.2 }
      | none => st
    else
      let r := companionScan lines lines.length (i + 1) (open_braces - close_braces)
      { st with extracted := st.extracted ++ r.1,
                processed_lines := st.processed_lines ++ r.2 }
  else if matchKtClass stripped then
    { st with extracted := st.extracted ++ st.pending_annotations ++ [line],
              pending_annotations := [] }
  else if matchKtInterface stripped then
    { st with extracted := st.extracted ++ st.pending_annotations ++ [line],
              pending_annotations := [] }
  else if matchKtFunction stripped then
    let st := { st with
      extracted := st.extracted ++ st.pending_annotations,
      pending_annotations := [],
      processed_lines := st.processed_lines ++ [i] }
    let sig :=
      if pyContains stripped "(" && !pyContains stripped ")" then
        let r := takeNoParen lines lines.length (i + 1)
        let collected := r.1.map (lineAt lines)
        if r.2 < lines.length then
          (line :: (collected ++ [lineAt lines r.2]), r.1 ++ [r.2], r.2 + 1)
        else (line :: collected, r.1, r.2)
      else ([line], ([] : List Nat), i + 1)
    let st := { st with processed_lines := st.processed_lines ++ sig.2.1 }
    let func_lines := sig.1
    let j := sig.2.2
    let full_sig := joinLines func_lines
    let has_body :=
      if !pyContains full_sig "\x7b" then
        if j < lines.length then
          let next_line := pyStrip (lineAt lines j)
          if pyStartsWith next_line "\x7b" then true
          else if next_line = "" || pyStartsWith next_line "//" then
            let k := skipBlankComment lines lines.length (j + 1)
            decide (k < lines.length) && pyStartsWith (pyStrip (lineAt lines k)) "\x7b"
          else false
        else false
      else true
    if !has_body then { st with extracted := st.extracted ++ [full_sig] }
    else
      let sigstate := func_lines.foldl
        (fun (p : Int × Bool) fl =>
          if pyContains fl "\x7b" then
            (p.1 + (pyCount fl "\x7b" : Int) - (pyCount fl "\x7d" : Int), true)
          else p)
        ((0 : Int), false)
      let r := bodyCollect lines lines.length j sigstate.1 sigstate.2
      { st with
        extracted := st.extracted ++ [joinLines (buildFunctionOutput func_lines r.1)],
        processed_lines := st.processed_lines ++ r.2 }
  else if matchKtConstructor stripped then
    let st := { st with
      extracted := st.extracted ++ st.pending_annotations,
      pending_annotations := [] }
    if pyContains stripped "(" && !pyContains stripped ")" then
      let r := takeNoParen lines lines.length (i + 1)
      let collected := r.1.map (lineAt lines)
      if r.2 < lines.length then
        { st with
          extracted := st.extracted ++ [joinLines (line :: (collected ++ [lineAt lines r.2]))],
          processed_lines := st.processed_lines ++ r.1 ++ [r.2] }
      else
        { st with extracted := st.extracted ++ [joinLines (line :: collected)],
                  processed_lines := st.processed_lines ++ r.1 }
    else { st with extracted := st.extracted ++ [line] }
  else if matchKtInit stripped then
    { st with in_init_block := true, init_brace_depth := open_braces - close_braces,
              init_content := [] }
  else if st.brace_depth ≤ 2 && matchKtProperty stripped then
    let st := { st with
      extracted := st.extracted ++ st.pending_annotations,
      pending_annotations := [] }
    if pyLen line > 100 then
      if pyContains line "=" then
        let before : String := ⟨line.data.takeWhile (· ≠ '=')⟩
        let rhs := pyStrip ⟨(line.data.dropWhile (· ≠ '=')).tail⟩
        if pyLen rhs > 50 then
          { st with extracted := st.extracted ++ [before ++ "= " ++ pyTake rhs 45 ++ "..."] }
        else { st with extracted := st.extracted ++ [line] }
      else { st with extracted := st.extracted ++ [line] }
    else { st with extracted := st.extracted ++ [line] }
  else if matchKtTypealias stripped then
    { st with extracted := st.extracted ++ [line] }
  else st

/-- One iteration of `compress_kotlin`'s `for i, line in enumerate(lines)`
loop (already-processed indices are skipped). -/
def ktProcessLine (lines : List String) (i : Nat) (st : KtState) : KtState :=
  if st.processed_lines.contains i then st
  else
    let line := lineAt lines i
    let stripped := pyStrip line
    if pyContains stripped "/*" && !pyContains stripped "*/" then
      { st with in_multiline_comment := true }
    else if pyContains stripped "*/" then
      { st with in_multiline_comment := false }
    else if st.in_multiline_comment then st
    else if !st.in_init_block && (pyStartsWith stripped "//" || stripped = "") then st
    else
      let open_braces : Int := pyCount stripped "\x7b"
      let close_braces : Int := pyCount stripped "\x7d"
      if st.in_init_block then
        let d := st.init_brace_depth + open_braces - close_braces
        if d ≤ 0 then
          { st with in_init_block := false, init_brace_depth := d,
                    extracted := st.extracted ++ ["    init \x7b"] ++ st.init_content ++
                      ["    \x7d"],
                    init_content := [] }
        else
          { st with init_brace_depth := d,
                    init_content := st.init_content ++ ktInitLineAdds stripped }
      else
        let st := { st with brace_depth := st.brace_depth + open_braces - close_braces }
        ktDispatch lines i line stripped open_braces close_braces st

/-- The fuelled outer loop: each iteration advances the index by exactly
one, so `lines.length - i + 1` units of fuel always reach end-of-file. -/
def ktLoop (lines : List String) : Nat → Nat → KtState → Option KtState
  | 0, _, _ => none
  | fuel + 1, i, st =>
    if i < lines.length then ktLoop lines fuel (i + 1) (ktProcessLine lines i st)
    else some st

/-- `compress_kotlin`: structural extraction for Kotlin sources.  The
`none` fallback is unreachable (`ktLoop_isSome` below). -/
def compress_kotlin (content : String) : String :=
  let lines := splitLines content
  match ktLoop lines (lines.length + 1) 0 ktInit with
  | some st => joinLines (condenseKtImports st.imports ++ st.extracted)
  | none => ""

/-! ### compress_content -/

/-- The `compressors` dispatch table: `compressors.get(language)`. -/
def compressorFor (language : String) : Option (String → String) :=
  if language = "kotlin" then some compress_kotlin
  else if language = "gradle-kotlin" then some compress_kotlin
  else if language = "typescript" then some compress_typescript
  else if language = "javascript" then some compress_typescript
  else if language = "tsx" then some compress_typescript
  else if language = "jsx" then some compress_typescript
  else if language = "python" then some compress_python
  else if language = "aidl" then some compress_aidl
  else if language = "gradle" then some compress_groovy
  else if language = "groovy" then some compress_groovy
  else if language = "graphql" then some compress_graphql
  else none

/-- `compress_content`: compress via the language's compressor, falling
back to the original content when the result strips to nothing or the
language has no registered compressor. -/
def compress_content (content language : String) : String :=
  match compressorFor language with
  | some compressor =>
    let compressed := compressor content
    if pyStrip compressed ≠ "" then compressed else content
  | none => content

/-- C3.  For every non-empty input and every language tag,
`compress_content` returns a non-empty result; if the selected compressor
produces empty or whitespace-only output the original text is returned
unchanged; and a language tag with no registered compressor — in
particular any tag outside the eleven registered ones — always passes the
original text through unchanged. -/
theorem compress_content_nonempty (content language : String) (h : content ≠ "") :
    compress_content content language ≠ "" ∧
    (∀ f, compressorFor language = some f → pyStrip (f content) = "" →
      compress_content content language = content) ∧
    (compressorFor language = none → compress_content content language = content) ∧
    (language ∉ ["kotlin", "gradle-kotlin", "typescript", "javascript", "tsx", "jsx",
        "python", "aidl", "gradle", "groovy", "graphql"] →
      compress_content content language = content) := by
  have hnone : language ∉ ["kotlin", "gradle-kotlin", "typescript", "javascript", "tsx",
      "jsx", "python", "aidl", "gradle", "groovy", "graphql"] →
      compressorFor language = none := by
    intro hmem
    simp only [List.mem_cons, List.not_mem_nil, or_false, not_or] at hmem
    obtain ⟨h1, h2, h3, h4, h5, h6, h7, h8, h9, h10, h11⟩ := hmem
    unfold compressorFor
    rw [if_neg h1, if_neg h2, if_neg h3, if_neg h4, if_neg h5, if_neg h6, if_neg h7,
      if_neg h8, if_neg h9, if_neg h10, if_neg h11]
  refine ⟨?_, ?_, ?_, ?_⟩
  · unfold compress_content
    cases hc : compressorFor language with
    | none => exact h
    | some f =>
      simp only []
      split
      · rename_i hne
        intro hemp
        rw [hemp] at hne
        exact hne rfl
      · exact h
  · intro f hf hemp
    unfold compress_content
    rw [hf]
    simp only [hemp]
    rw [if_neg (by simp)]
  · intro hc
    unfold compress_content
    rw [hc]
  · intro hmem
    unfold compress_content
    rw [hnone hmem]

/-- Witness for `compress_content_nonempty`: `compress_aidl` strips
`"hello"` to nothing, so the original text comes back; an unregistered
tag passes through. -/
theorem compress_content_nonempty_witness :
    "hello" ≠ "" ∧ pyStrip (compress_aidl "hello") = "" ∧
    compress_content "hello" "aidl" = "hello" ∧
    compress_content "hello" "markdown" = "hello" :=
  ⟨by decide, by decide,
   (compress_content_nonempty "hello" "aidl" (by decide)).2.1 compress_aidl rfl (by decide),
   (compress_content_nonempty "hello" "markdown" (by decide)).2.2.2 (by decide)⟩

theorem buildFunctionOutput_trunc (func_lines body_lines : List String)
    (h : body_lines.length > 11) :
    buildFunctionOutput func_lines body_lines =
      func_lines ++ body_lines.take 8 ++
        ["        // ... (" ++ toString ((body_lines.length : Int) - 8 - 3) ++ " more lines)"] ++
        ((if pyStrip (pyLast body_lines) = "\x7d" then
            (body_lines.drop (body_lines.length - 4)).dropLast
          else body_lines.drop (body_lines.length - 3)).filter
          fun ll => pyStrip ll ≠ "" && !(body_lines.take 8).contains ll) ++
        [if pyStrip (pyLast body_lines) = "\x7d" then pyLast body_lines else "    \x7d"] := by
  have hne : body_lines.isEmpty = false := by
    cases body_lines with
    | nil => simp at h
    | cons a l => rfl
  unfold buildFunctionOutput
  rw [hne]
  simp only [Bool.false_eq_true, if_false]
  rw [if_pos (by omega : ((body_lines.length : Int)) - 8 > 3)]
  by_cases hbr : pyStrip (pyLast body_lines) = "\x7d"
  · rw [if_pos hbr, if_pos hbr, if_pos hbr]
  · rw [if_neg hbr, if_neg hbr, if_neg hbr]

theorem buildFunctionOutput_small (func_lines body_lines : List String)
    (hne : body_lines ≠ []) (hle : body_lines.length ≤ 11) :
    buildFunctionOutput func_lines body_lines = func_lines ++ body_lines := by
  have hne2 : body_lines.isEmpty = false := by
    cases body_lines with
    | nil => exact absurd rfl hne
    | cons a l => rfl
  unfold buildFunctionOutput
  rw [hne2]
  simp only [Bool.false_eq_true, if_false]
  rw [if_neg (by omega : ¬ ((body_lines.length : Int)) - 8 > 3)]
  by_cases hgt : ((body_lines.length : Int)) - 8 > 0
  · rw [if_pos hgt, List.append_assoc, List.take_append_drop]
  · rw [if_neg hgt]
    have : body_lines.take 8 = body_lines := List.take_of_length_le (by omega)
    rw [this]

/-- C4.  For a brace-delimited function with a body, the emitted preview
is: the full (possibly multi-line) signature, the first 8 collected body
lines verbatim, then — when more than 3 body lines remain beyond those 8 —
exactly one truncation marker stating `remaining − 3` omitted lines
(`1 more lines` for a 12-line body), the last 3 body lines (the 3 before
the closing brace when the body ends in one) deduplicated against the
first 8, and a closing brace line; with 3 or fewer remaining lines they
are all emitted and no marker or extra brace is added. -/
theorem compress_kotlin_body_preview (func_lines body_lines : List String) :
    (body_lines.length > 11 →
      buildFunctionOutput func_lines body_lines =
        func_lines ++ body_lines.take 8 ++
          ["        // ... (" ++ toString ((body_lines.length : Int) - 8 - 3) ++
            " more lines)"] ++
          ((if pyStrip (pyLast body_lines) = "\x7d" then
              (body_lines.drop (body_lines.length - 4)).dropLast
            else body_lines.drop (body_lines.length - 3)).filter
            fun ll => pyStrip ll ≠ "" && !(body_lines.take 8).contains ll) ++
          [if pyStrip (pyLast body_lines) = "\x7d" then pyLast body_lines else "    \x7d"]) ∧
    (body_lines ≠ [] → body_lines.length ≤ 11 →
      buildFunctionOutput func_lines body_lines = func_lines ++ body_lines) :=
  ⟨buildFunctionOutput_trunc func_lines body_lines,
   buildFunctionOutput_small func_lines body_lines⟩

/-- Witness for `compress_kotlin_body_preview`: Scenario C, a 12-line
body — the marker announces `(4−3) = 1` more lines and the whole preview
for `fun f()` with body lines `a1 .. a11, \x7d` works out concretely. -/
theorem compress_kotlin_body_preview_witness :
    (["    a1()", "    a2()", "    a3()", "    a4()", "    a5()", "    a6()", "    a7()",
        "    a8()", "    a9()", "    a10()", "    a11()", "\x7d"] : List String).length > 11 ∧
    buildFunctionOutput ["fun f() \x7b"]
        ["    a1()", "    a2()", "    a3()", "    a4()", "    a5()", "    a6()", "    a7()",
          "    a8()", "    a9()", "    a10()", "    a11()", "\x7d"] =
      ["fun f() \x7b"] ++
        ["    a1()", "    a2()", "    a3()", "    a4()", "    a5()", "    a6()", "    a7()",
          "    a8()"] ++
        ["        // ... (1 more lines)"] ++
        ["    a9()", "    a10()", "    a11()"] ++ ["\x7d"] :=
  ⟨by decide, by decide⟩

theorem ktLoop_isSome :
    ∀ (fuel : Nat) (lines : List String) (i : Nat) (st : KtState),
      lines.length - i < fuel → (ktLoop lines fuel i st).isSome = true
  | 0, lines, i, _, h => absurd h (by omega)
  | fuel + 1, lines, i, st, h => by
    unfold ktLoop
    split
    · exact ktLoop_isSome fuel lines (i + 1) (ktProcessLine lines i st)
        (by rename_i hlt; omega)
    · rfl

/-- C9.  The outer scan of `compress_kotlin` always reaches end-of-file:
with any fuel exceeding the number of unscanned lines — in particular the
`lines.length + 1` used by `compress_kotlin` — the fuelled loop returns a
final state (it cannot run forever and has no failure outcome, on
malformed input included); and whenever the body preview truncates, its
final emitted line strips to a closing brace. -/
theorem compress_kotlin_scan_to_eof (func_lines body_lines : List String) :
    (∀ (lines : List String) (fuel i : Nat) (st : KtState),
      lines.length - i < fuel → (ktLoop lines fuel i st).isSome = true) ∧
    (∀ content : String,
      (ktLoop (splitLines content) ((splitLines content).length + 1) 0 ktInit).isSome = true) ∧
    (body_lines.length > 11 →
      ∃ l ∈ buildFunctionOutput func_lines body_lines, pyStrip l = "\x7d") := by
  refine ⟨fun lines fuel i st h => ktLoop_isSome fuel lines i st h,
    fun content => ktLoop_isSome _ _ 0 ktInit (by omega), ?_⟩
  intro h
  rw [buildFunctionOutput_trunc func_lines body_lines h]
  refine ⟨if pyStrip (pyLast body_lines) = "\x7d" then pyLast body_lines else "    \x7d",
    by simp, ?_⟩
  by_cases hbr : pyStrip (pyLast body_lines) = "\x7d"
  · rw [if_pos hbr]
    exact hbr
  · rw [if_neg hbr]
    decide

/-- Witness for `compress_kotlin_scan_to_eof`: a malformed input with an
unterminated block comment and an unbalanced brace still scans to
end-of-file, and a truncated 12-line body ends in a closing brace line. -/
theorem compress_kotlin_scan_to_eof_witness :
    (splitLines "/* unterminated\nfun f() \x7b").length - 0 < 3 ∧
    (ktLoop (splitLines "/* unterminated\nfun f() \x7b") 3 0 ktInit).isSome = true ∧
    compress_kotlin "/* unterminated\nfun f() \x7b" = "" ∧
    (["b1", "b2", "b3", "b4", "b5", "b6", "b7", "b8", "b9", "b10", "b11", "b12"] :
        List String).length > 11 ∧
    (∃ l ∈ buildFunctionOutput ["fun g() \x7b"]
      ["b1", "b2", "b3", "b4", "b5", "b6", "b7", "b8", "b9", "b10", "b11", "b12"],
      pyStrip l = "\x7d") :=
  ⟨by decide,
   (compress_kotlin_scan_to_eof [] []).1 (splitLines "/* unterminated\nfun f() \x7b") 3 0 ktInit
     (by decide),
   by decide, by decide,
   (compress_kotlin_scan_to_eof ["fun g() \x7b"]
     ["b1", "b2", "b3", "b4", "b5", "b6", "b7", "b8", "b9", "b10", "b11", "b12"]).2.2
     (by decide)⟩

theorem charListLe_total : ∀ a b : List Char, charListLe a b = true ∨ charListLe b a = true
  | [], _ => Or.inl rfl
  | _ :: _, [] => Or.inr rfl
  | a :: as2, b :: bs2 => by
    by_cases hab : a = b
    · subst hab
      simpa [charListLe] using charListLe_total as2 bs2
    · rcases lt_or_gt_of_ne hab with h | h
      · exact Or.inl (by simp [charListLe, hab, h])
      · exact Or.inr (by simp [charListLe, Ne.symm hab, h])

theorem charListLe_trans :
    ∀ a b c : List Char, charListLe a b = true → charListLe b c = true →
      charListLe a c = true
  | [], _, _, _, _ => rfl
  | _ :: _, [], _, hab, _ => by simp [charListLe] at hab
  | _ :: _, _ :: _, [], _, hbc => by simp [charListLe] at hbc
  | a :: as2, b :: bs2, c :: cs2, hab, hbc => by
    by_cases h1 : a = b
    · subst h1
      by_cases h2 : a = c
      · subst h2
        simp only [charListLe, if_pos rfl] at hab hbc ⊢
        exact charListLe_trans as2 bs2 cs2 hab hbc
      · simp only [charListLe, if_pos rfl] at hab
        simpa [charListLe, h2] using hbc
    · simp only [charListLe, if_neg h1, decide_eq_true_eq] at hab
      by_cases h2 : b = c
      · subst h2
        simp [charListLe, h1, hab]
      · simp only [charListLe, if_neg h2, decide_eq_true_eq] at hbc
        have hac : a < c := lt_trans hab hbc
        simp [charListLe, ne_of_lt hac, hac]

theorem strLe_total (a b : String) : strLe a b = true ∨ strLe b a = true :=
  charListLe_total a.data b.data

theorem strLe_trans {a b c : String} (h1 : strLe a b = true) (h2 : strLe b c = true) :
    strLe a c = true :=
  charListLe_trans a.data b.data c.data h1 h2

theorem mem_insertSorted {a x : String} :
    ∀ {l : List String}, a ∈ insertSorted x l ↔ a = x ∨ a ∈ l
  | [] => by simp [insertSorted]
  | y :: ys => by
    unfold insertSorted
    split
    · simp
    · rw [List.mem_cons, List.mem_cons, mem_insertSorted]
      tauto

theorem perm_insertSorted (x : String) :
    ∀ l : List String, (insertSorted x l).Perm (x :: l)
  | [] => List.Perm.refl _
  | y :: ys => by
    unfold insertSorted
    split
    · exact List.Perm.refl _
    · exact ((perm_insertSorted x ys).cons y).trans (List.Perm.swap x y ys)

theorem pairwise_insertSorted (x : String) :
    ∀ {l : List String}, List.Pairwise (fun a b => strLe a b = true) l →
      List.Pairwise (fun a b => strLe a b = true) (insertSorted x l)
  | [], _ => List.Pairwise.cons (by simp) List.Pairwise.nil
  | y :: ys, h => by
    obtain ⟨hy, hys⟩ := List.pairwise_cons.mp h
    unfold insertSorted
    split
    · rename_i hxy
      refine List.pairwise_cons.mpr ⟨?_, h⟩
      intro b hb
      rcases List.mem_cons.mp hb with rfl | hb
      · exact hxy
      · exact strLe_trans hxy (hy b hb)
    · rename_i hxy
      refine List.pairwise_cons.mpr ⟨?_, pairwise_insertSorted x hys⟩
      intro b hb
      rcases mem_insertSorted.mp hb with hbx | hb
      · rcases strLe_total x y with h1 | h1
        · exact absurd h1 hxy
        · rw [hbx]
          exact h1
      · exact hy b hb

theorem pairwise_sortStrings (xs : List String) :
    List.Pairwise (fun a b => strLe a b = true) (sortStrings xs) := by
  induction xs with
  | nil => exact List.Pairwise.nil
  | cons x xs ih => exact pairwise_insertSorted x ih

theorem perm_sortStrings (xs : List String) : (sortStrings xs).Perm xs := by
  induction xs with
  | nil => exact List.Perm.refl _
  | cons x xs ih =>
    exact (perm_insertSorted x (sortStrings xs)).trans (ih.cons x)

theorem groupLookup_addToGroups :
    ∀ (gs : List (String × List String)) (k0 imp k : String),
      groupLookup (addToGroups gs k0 imp) k =
        if k = k0 then groupLookup gs k ++ [imp] else groupLookup gs k
  | [], k0, imp, k => by
    show (if k0 = k then [imp] else groupLookup [] k) =
      if k = k0 then groupLookup [] k ++ [imp] else groupLookup [] k
    by_cases h : k = k0
    · rw [if_pos h.symm, if_pos h]
      rfl
    · rw [if_neg (fun hh => h hh.symm), if_neg h]
  | (k1, v) :: rest, k0, imp, k => by
    by_cases h1 : k1 = k0
    · have ha : addToGroups ((k1, v) :: rest) k0 imp = (k1, v ++ [imp]) :: rest := by
        show (if k1 = k0 then (k1, v ++ [imp]) :: rest
          else (k1, v) :: addToGroups rest k0 imp) = _
        rw [if_pos h1]
      rw [ha]
      show (if k1 = k then v ++ [imp] else groupLookup rest k) =
        if k = k0 then (if k1 = k then v else groupLookup rest k) ++ [imp]
        else if k1 = k then v else groupLookup rest k
      by_cases h2 : k1 = k
      · rw [if_pos h2, if_pos h2, if_pos (h2.symm.trans h1)]
      · rw [if_neg h2, if_neg h2, if_neg (fun hk => h2 (h1.trans hk.symm))]
    · have ha : addToGroups ((k1, v) :: rest) k0 imp =
          (k1, v) :: addToGroups rest k0 imp := by
        show (if k1 = k0 then (k1, v ++ [imp]) :: rest
          else (k1, v) :: addToGroups rest k0 imp) = _
        rw [if_neg h1]
      rw [ha]
      show (if k1 = k then v else groupLookup (addToGroups rest k0 imp) k) =
        if k = k0 then (if k1 = k then v else groupLookup rest k) ++ [imp]
        else if k1 = k then v else groupLookup rest k
      by_cases h2 : k1 = k
      · rw [if_pos h2, if_pos h2, if_neg (fun hk => h1 (h2.trans hk))]
      · rw [if_neg h2, if_neg h2, groupLookup_addToGroups rest k0 imp k]

theorem groupLookup_foldl :
    ∀ (imports : List String) (gs : List (String × List String)) (k : String),
      groupLookup (imports.foldl (fun gs imp => addToGroups gs (ktImportKey imp) imp) gs) k =
        groupLookup gs k ++ imports.filter fun imp => ktImportKey imp == k
  | [], gs, k => by simp
  | imp :: rest, gs, k => by
    rw [List.foldl_cons, groupLookup_foldl rest, groupLookup_addToGroups]
    by_cases h : k = ktImportKey imp
    · rw [if_pos h, List.filter_cons, if_pos (by simp [h]), List.append_assoc]
      simp
    · rw [if_neg h, List.filter_cons,
        if_neg (by simpa using fun he => h he.symm)]

theorem groupLookup_buildGroups (imports : List String) (k : String) :
    groupLookup (buildGroups imports) k =
      imports.filter fun imp => ktImportKey imp == k := by
  unfold buildGroups
  rw [groupLookup_foldl]
  rfl

theorem groupLookup_ne_nil_mem :
    ∀ (gs : List (String × List String)) (k : String),
      groupLookup gs k ≠ [] → k ∈ gs.map Prod.fst
  | [], k, h => absurd rfl h
  | (k1, v) :: rest, k, h => by
    by_cases h1 : k1 = k
    · simp [h1]
    · have h2 : groupLookup ((k1, v) :: rest) k = groupLookup rest k := by
        show (if k1 = k then v else groupLookup rest k) = _
        rw [if_neg h1]
      rw [h2] at h
      simp only [List.map_cons, List.mem_cons]
      exact Or.inr (groupLookup_ne_nil_mem rest k h)

/-- C6.  `compress_kotlin` collects every import and condenses the set
into a summary block at the top: one group per two-segment prefix, groups
emitted in sorted prefix order (the sorted key list is ordered and a
permutation of the group keys), a group with more than 3 imports
collapsing to a single `prefix.* (N imports)` line, a group with 3 or
fewer listing each import individually, and every collected import
belonging to its key's group. -/
theorem compress_kotlin_import_condensing (imports : List String) (h : imports ≠ []) :
    condenseKtImports imports =
      "//imports:" ::
        ((sortStrings ((buildGroups imports).map Prod.fst)).map fun group_key =>
          let group := imports.filter fun imp => ktImportKey imp == group_key
          if group.length > 3 then
            ["//  " ++ group_key ++ ".* (" ++ toString group.length ++ " imports)"]
          else group.map fun imp => "//  " ++ pyReplace imp "import " "").flatten ++ [""] ∧
    List.Pairwise (fun a b => strLe a b = true)
      (sortStrings ((buildGroups imports).map Prod.fst)) ∧
    (sortStrings ((buildGroups imports).map Prod.fst)).Perm
      ((buildGroups imports).map Prod.fst) ∧
    (∀ imp ∈ imports, ktImportKey imp ∈ (buildGroups imports).map Prod.fst ∧
      imp ∈ groupLookup (buildGroups imports) (ktImportKey imp)) := by
  refine ⟨?_, pairwise_sortStrings _, perm_sortStrings _, ?_⟩
  · unfold condenseKtImports
    rw [if_pos (by cases imports with
      | nil => exact absurd rfl h
      | cons a l => simp)]
    simp only [groupLookup_buildGroups]
  · intro imp hmem
    have hflt : imp ∈ imports.filter fun i => ktImportKey i == ktImportKey imp :=
      List.mem_filter.mpr ⟨hmem, by simp⟩
    have hlk : imp ∈ groupLookup (buildGroups imports) (ktImportKey imp) := by
      rw [groupLookup_buildGroups]
      exact hflt
    refine ⟨groupLookup_ne_nil_mem _ _ ?_, hlk⟩
    intro hnil
    rw [hnil] at hlk
    simp at hlk

/-- Witness for `compress_kotlin_import_condensing`: four `com.e` imports
collapse to one `com.e.* (4 imports)` line, the lone `org.z` import is
listed individually, and the groups come out in sorted prefix order. -/
theorem compress_kotlin_import_condensing_witness :
    (["import com.e.a", "import com.e.b", "import com.e.c", "import com.e.d",
        "import org.z.q"] : List String) ≠ [] ∧
    condenseKtImports ["import com.e.a", "import com.e.b", "import com.e.c",
        "import com.e.d", "import org.z.q"] =
      ["//imports:", "//  com.e.* (4 imports)", "//  org.z.q", ""] ∧
    (ktImportKey "import com.e.a" ∈
        (buildGroups ["import com.e.a", "import com.e.b", "import com.e.c",
          "import com.e.d", "import org.z.q"]).map Prod.fst ∧
      "import com.e.a" ∈ groupLookup
        (buildGroups ["import com.e.a", "import com.e.b", "import com.e.c",
          "import com.e.d", "import org.z.q"]) (ktImportKey "import com.e.a")) :=
  ⟨by decide, by decide,
   (compress_kotlin_import_condensing
       ["import com.e.a", "import com.e.b", "import com.e.c", "import com.e.d",
         "import org.z.q"] (by decide)).2.2.2 "import com.e.a" (by decide)⟩
